import Mathlib

/-!
# Verification of the awg-proxy packet-transformation core

A shallow embedding of the AmneziaWG obfuscation core of the `awg-proxy`
repository (`internal/awg/transform.go`, `internal/awg/blake2s.go`,
`internal/awg/cps.go`).

Modelling conventions:

* Byte buffers (`[]byte`) are `List Nat`; a byte is a `Nat` (values the Go
  code can produce are `< 256`).
* Go `int` fields become `Int`; Go `uint32` values become `Nat` with
  arithmetic taken `% 2^32` exactly where the Go code wraps.
* Randomness is made explicit: `math/rand/v2` draws are supplied as
  function parameters (`rnd : Nat → Nat` models the byte stream produced
  by `randFill`, `k : Nat` models the draw consumed by `rand.IntN`).
  Every byte string / residue is reachable from the generator, so
  universally quantifying over these parameters over-approximates the
  random behaviour and a concrete instantiation witnesses a reachable run.
* `rand.IntN(n)` panics for `n ≤ 0`; code paths that can panic are
  modelled with `Option` (`none` = the Go code faults).
* Fields the Go code precomputes once (`mac1keyServer`, `mac1keyClient`,
  `h4Fixed`, `h4NoOp`, `maxScan` set by `ComputeMAC1Keys` /
  `ComputeFastPath`) are modelled as derived functions of the `Config`.
-/

set_option maxRecDepth 100000
set_option maxHeartbeats 1000000

/-! ## Little-endian 32-bit fields (`encoding/binary.LittleEndian`) -/

/-- `binary.LittleEndian.Uint32(l[:4])`. -/
def readLE32 (l : List Nat) : Nat :=
  l.getD 0 0 + 256 * l.getD 1 0 + 65536 * l.getD 2 0 + 16777216 * l.getD 3 0

/-- The four bytes `binary.LittleEndian.PutUint32` writes for value `v`. -/
def putUint32LE (v : Nat) : List Nat :=
  [v % 256, v / 256 % 256, v / 65536 % 256, v / 16777216 % 256]

/-- `binary.LittleEndian.PutUint32(buf[off:off+4], v)`: overwrite the four
bytes at `off`. -/
def writeLE32At (l : List Nat) (off : Nat) (v : Nat) : List Nat :=
  l.take off ++ putUint32LE v ++ l.drop (off + 4)

/-! ## Standard WireGuard message types and sizes (`transform.go`) -/

def wgHandshakeInit : Nat := 1
def wgHandshakeResponse : Nat := 2
def wgCookieReply : Nat := 3
def wgTransportData : Nat := 4

def WgHandshakeInitSize : Nat := 148
def WgHandshakeResponseSize : Nat := 92
def WgCookieReplySize : Nat := 64
def WgTransportMinSize : Nat := 32

/-! ## HRange (`transform.go`) -/

/-- `HRange` is a uint32 range `[Min, Max]` for v2 H-parameters. -/
structure HRange where
  Min : Nat
  Max : Nat
deriving DecidableEq

/-- `HRange.Pick`: returns `Min` when `Min == Max`, otherwise
`Min + rand.IntN(Max-Min+1)` with all arithmetic on uint32.  The bound
`Max-Min+1` is computed with 32-bit wraparound; when it wraps to `0`,
`rand.IntN(0)` panics, which is modelled as `none`.  `k` models the value
drawn by `rand.IntN` (reduced `mod` the bound). -/
def HRange.pick (r : HRange) (k : Nat) : Option Nat :=
  if r.Min = r.Max then some r.Min
  else if (r.Max + 4294967296 - r.Min + 1) % 4294967296 = 0 then none
  else some ((r.Min + k % ((r.Max + 4294967296 - r.Min + 1) % 4294967296)) % 4294967296)

/-- `HRange.Contains`: `Min ≤ v ∧ v ≤ Max`. -/
def HRange.contains (r : HRange) (v : Nat) : Bool :=
  decide (r.Min ≤ v) && decide (v ≤ r.Max)

/-! ## CPS templates (`cps.go`) -/

/-- The 62-character alphanumeric alphabet `"0123456789A..Za..z"` as bytes. -/
def alphanumChars : List Nat :=
  ((List.range 10).map (fun i => 48 + i)) ++
  ((List.range 26).map (fun i => 65 + i)) ++
  ((List.range 26).map (fun i => 97 + i))

/-- One parsed CPS segment (`cpsSegment`).  `kind` is the Go tag byte:
`98='b'` static, `114='r'` random, `116='t'` timestamp, `99='c'` counter,
`67='C'` random alphanumeric, `68='D'` random digits. -/
structure cpsSegment where
  kind : Nat
  data : List Nat
  size : Int
deriving DecidableEq

/-- A parsed CPS template (`CPSTemplate`). -/
structure CPSTemplate where
  segments : List cpsSegment
deriving DecidableEq

/-- The bytes one segment contributes during `Generate`.  `off` is the
current output offset (used to index the modelled random stream `rnd`,
mirroring where `randFill`/`randAlphanumFill`/`randDigitFill` write). -/
def segBytes (seg : cpsSegment) (counter ts : Nat) (rnd : Nat → Nat) (off : Nat) : List Nat :=
  if seg.kind = 98 then seg.data
  else if seg.kind = 114 then (List.range seg.size.toNat).map (fun j => rnd (off + j) % 256)
  else if seg.kind = 67 then
    (List.range seg.size.toNat).map (fun j => alphanumChars.getD (rnd (off + j) % 62) 0)
  else if seg.kind = 68 then (List.range seg.size.toNat).map (fun j => 48 + rnd (off + j) % 10)
  else if seg.kind = 116 then putUint32LE ts
  else if seg.kind = 99 then putUint32LE counter
  else []

/-- `CPSTemplate.Generate`: concatenate the segments.  `counter` fills
`<c>` segments; `ts` models `time.Now().Unix()` read for `<t>` segments;
`rnd` models the random stream. -/
def CPSTemplate.Generate (t : CPSTemplate) (counter : Nat) (ts : Nat) (rnd : Nat → Nat) : List Nat :=
  t.segments.foldl (fun acc seg => acc ++ segBytes seg counter ts rnd acc.length) []

/-- Body of `GenerateCPSPackets`: walk the template slots in order, skip
`nil` templates, generate with the current counter and post-increment it
(uint32 wraparound).  `i` is the emission index, used to index `env`,
which supplies the timestamp and random stream each `Generate` call
consumes.  Returns the packets and the final counter value. -/
def generateCPSGo (templates : List (Option CPSTemplate)) (i : Nat) (c : Nat)
    (env : Nat → Nat × (Nat → Nat)) : List (List Nat) × Nat :=
  match templates with
  | [] => ([], c)
  | none :: rest => generateCPSGo rest i c env
  | some t :: rest =>
    let pkt := t.Generate c (env i).1 (env i).2
    let (ps, c2) := generateCPSGo rest (i + 1) ((c + 1) % 4294967296) env
    (pkt :: ps, c2)

/-- `GenerateCPSPackets(templates, &counter)`. -/
def GenerateCPSPackets (templates : List (Option CPSTemplate)) (counter : Nat)
    (env : Nat → Nat × (Nat → Nat)) : List (List Nat) × Nat :=
  generateCPSGo templates 0 counter env

/-! ## BLAKE2s (`blake2s.go`) -/

def blake2sIV : List Nat :=
  [0x6A09E667, 0xBB67AE85, 0x3C6EF372, 0xA54FF53A,
   0x510E527F, 0x9B05688C, 0x1F83D9AB, 0x5BE0CD19]

def blake2sSigma : List (List Nat) :=
  [[0, 1, 2, 3, 4, 5, 6, 7, 8, 9, 10, 11, 12, 13, 14, 15],
   [14, 10, 4, 8, 9, 15, 13, 6, 1, 12, 0, 2, 11, 7, 5, 3],
   [11, 8, 12, 0, 5, 2, 15, 13, 10, 14, 3, 6, 7, 1, 9, 4],
   [7, 9, 3, 1, 13, 12, 11, 14, 2, 6, 5, 10, 4, 0, 15, 8],
   [9, 0, 5, 7, 2, 4, 10, 15, 14, 1, 11, 12, 6, 8, 3, 13],
   [2, 12, 6, 10, 0, 11, 8, 3, 4, 13, 7, 5, 15, 14, 1, 9],
   [12, 5, 1, 15, 14, 13, 4, 10, 0, 7, 6, 3, 9, 2, 8, 11],
   [13, 11, 7, 14, 12, 1, 3, 9, 5, 0, 15, 4, 8, 6, 2, 10],
   [6, 15, 14, 9, 11, 3, 0, 8, 12, 2, 13, 7, 1, 4, 10, 5],
   [10, 2, 8, 4, 7, 6, 1, 5, 15, 11, 9, 14, 3, 12, 13, 0]]

/-- uint32 addition. -/
def add32 (a b : Nat) : Nat := (a + b) % 4294967296

/-- `rotr32`: `(x >> n) | (x << (32-n))` on uint32. -/
def rotr32 (x n : Nat) : Nat :=
  Nat.lor (x >>> n) ((x <<< (32 - n)) % 4294967296)

/-- The BLAKE2s G mixing function (`blake2sG`), acting on the 16-word
work vector `v` at indices `a b c d` with message words `x y`. -/
def blake2sG (v : List Nat) (a b c d : Nat) (x y : Nat) : List Nat :=
  let va := add32 (add32 (v.getD a 0) (v.getD b 0)) x
  let vd := rotr32 (Nat.xor (v.getD d 0) va) 16
  let vc := add32 (v.getD c 0) vd
  let vb := rotr32 (Nat.xor (v.getD b 0) vc) 12
  let va2 := add32 (add32 va vb) y
  let vd2 := rotr32 (Nat.xor vd va2) 8
  let vc2 := add32 vc vd2
  let vb2 := rotr32 (Nat.xor vb vc2) 7
  ((((v.set a va2).set b vb2).set c vc2).set d vd2)

/-- One round of the compression loop: the eight `blake2sG` calls with
schedule row `s`. -/
def blake2sRound (v m s : List Nat) : List Nat :=
  let mi := fun j => m.getD (s.getD j 0) 0
  let v1 := blake2sG v 0 4 8 12 (mi 0) (mi 1)
  let v2 := blake2sG v1 1 5 9 13 (mi 2) (mi 3)
  let v3 := blake2sG v2 2 6 10 14 (mi 4) (mi 5)
  let v4 := blake2sG v3 3 7 11 15 (mi 6) (mi 7)
  let v5 := blake2sG v4 0 5 10 15 (mi 8) (mi 9)
  let v6 := blake2sG v5 1 6 11 12 (mi 10) (mi 11)
  let v7 := blake2sG v6 2 7 8 13 (mi 12) (mi 13)
  blake2sG v7 3 4 9 14 (mi 14) (mi 15)

/-- `blake2sCompress(h, block, t0, t1, last)`. -/
def blake2sCompress (h : List Nat) (block : List Nat) (t0 t1 : Nat) (last : Bool) : List Nat :=
  let m := (List.range 16).map (fun i => readLE32 (block.drop (4 * i)))
  let v := h ++
    [blake2sIV.getD 0 0, blake2sIV.getD 1 0, blake2sIV.getD 2 0, blake2sIV.getD 3 0,
     Nat.xor t0 (blake2sIV.getD 4 0), Nat.xor t1 (blake2sIV.getD 5 0),
     (if last then Nat.xor (blake2sIV.getD 6 0) 4294967295 else blake2sIV.getD 6 0),
     blake2sIV.getD 7 0]
  let v1 := blake2sSigma.foldl (fun w s => blake2sRound w m s) v
  (List.range 8).map (fun i => Nat.xor (h.getD i 0) (Nat.xor (v1.getD i 0) (v1.getD (i + 8) 0)))

/-- `blake2sState`.  `buf` models the live prefix `s.buf[:s.bufLen]` of
the 64-byte staging array (bytes beyond `bufLen` are dead state: `sum`
zeroes them before the final compression). -/
structure blake2sState where
  h : List Nat
  t0 : Nat
  t1 : Nat
  buf : List Nat
  nn : Nat
deriving DecidableEq

/-- The `s.t0 += 64; if s.t0 < 64 { s.t1++ }; blake2sCompress(...)`
sequence both compression sites of `update` perform. -/
def compressStep (s : blake2sState) (block : List Nat) : blake2sState :=
  let t0A := (s.t0 + 64) % 4294967296
  let t1A := if t0A < 64 then (s.t1 + 1) % 4294967296 else s.t1
  { s with h := blake2sCompress s.h block t0A t1A false, t0 := t0A, t1 := t1A }

/-- `blake2sInit(nn, key)`:  `h[0] ^= 0x01010000 | kk<<8 | nn`; a
non-empty key is staged as a full padded first block. -/
def blake2sInit (nn : Nat) (key : List Nat) : blake2sState :=
  let kk := key.length
  let h0 := blake2sIV.set 0
    (Nat.xor (blake2sIV.getD 0 0) (Nat.lor (Nat.lor 16842752 (kk <<< 8)) nn))
  if kk > 0 then ⟨h0, 0, 0, key.take 64 ++ List.replicate (64 - kk) 0, nn⟩
  else ⟨h0, 0, 0, [], nn⟩

/-- The `for len(data) > 64` loop of `update`: compress full 64-byte
blocks while more than 64 bytes remain, then stash the rest in `buf`.
`fuel` only drives the recursion; any `fuel ≥ data.length` is enough. -/
def updLoop : Nat → blake2sState → List Nat → blake2sState
  | 0, s, data => { s with buf := data }
  | fuel + 1, s, data =>
    if data.length > 64 then updLoop fuel (compressStep s (data.take 64)) (data.drop 64)
    else { s with buf := data }

/-- `blake2sState.update`. -/
def blake2sUpdate (s : blake2sState) (data : List Nat) : blake2sState :=
  if data.length = 0 then s
  else
    let left := s.buf.length
    let fill := 64 - left
    if data.length > fill then
      updLoop data.length (compressStep s (s.buf ++ data.take fill)) (data.drop fill)
    else { s with buf := s.buf ++ data }

/-- `blake2sState.sum`: zero-pad the pending bytes to a final block,
compress with the `last` flag, serialise the eight words little-endian. -/
def blake2sSum (s : blake2sState) : List Nat :=
  let n := s.buf.length
  let t0A := (s.t0 + n) % 4294967296
  let t1A := if t0A < n then (s.t1 + 1) % 4294967296 else s.t1
  let h2 := blake2sCompress s.h (s.buf ++ List.replicate (64 - n) 0) t0A t1A true
  (List.range 8).foldr (fun i acc => putUint32LE (h2.getD i 0) ++ acc) []

/-- `blake2s256`: unkeyed BLAKE2s with 32-byte output. -/
def blake2s256 (data : List Nat) : List Nat :=
  blake2sSum (blake2sUpdate (blake2sInit 32 []) data)

/-- `blake2s128MAC`: keyed BLAKE2s, first 16 bytes. -/
def blake2s128MAC (key data : List Nat) : List Nat :=
  (blake2sSum (blake2sUpdate (blake2sInit 16 key) data)).take 16

/-- `computeMAC1Key`: BLAKE2s-256 of `"mac1----" ∥ pub`. -/
def computeMAC1Key (pub : List Nat) : List Nat :=
  blake2s256 ([109, 97, 99, 49, 45, 45, 45, 45] ++ pub)

/-- `recomputeMAC1`: rewrite bytes `[116:132]` of a handshake-init with
the keyed MAC of bytes `[0:116]`. -/
def recomputeMAC1 (buf key : List Nat) : List Nat :=
  buf.take 116 ++ blake2s128MAC key (buf.take 116) ++ buf.drop 132

/-- `recomputeMAC1Response`: rewrite bytes `[60:76]` of a handshake
response with the keyed MAC of bytes `[0:60]`. -/
def recomputeMAC1Response (buf key : List Nat) : List Nat :=
  buf.take 60 ++ blake2s128MAC key (buf.take 60) ++ buf.drop 76

/-! ## Config (`transform.go`) -/

/-- The all-zero 32-byte key (`[32]byte{}`). -/
def zeroKey : List Nat := List.replicate 32 0

/-- `Config` (the obfuscation parameters; `CPS`, `Timeout` and `LogLevel`
are carried for completeness). -/
structure Config where
  Jc : Int
  Jmin : Int
  Jmax : Int
  S1 : Int
  S2 : Int
  S3 : Int
  S4 : Int
  H1 : HRange
  H2 : HRange
  H3 : HRange
  H4 : HRange
  CPS : List (Option CPSTemplate)
  ServerPub : List Nat
  ClientPub : List Nat
  Timeout : Int
  LogLevel : Int

/-- Derived field `mac1keyServer` (set once by `ComputeMAC1Keys`). -/
def Config.mac1keyServer (c : Config) : List Nat := computeMAC1Key c.ServerPub

/-- Derived field `mac1keyClient` (set once by `ComputeMAC1Keys`). -/
def Config.mac1keyClient (c : Config) : List Nat := computeMAC1Key c.ClientPub

/-- Derived field `h4Fixed = H4.Min` (set once by `ComputeFastPath`). -/
def Config.h4Fixed (c : Config) : Nat := c.H4.Min

/-- Derived field `h4NoOp = (H4 == {4,4} && S4 == 0)`. -/
def Config.h4NoOp (c : Config) : Bool :=
  decide (c.H4.Min = wgTransportData) && decide (c.H4.Max = wgTransportData) &&
    decide (c.S4 = 0)

/-- Derived field `maxScan = max(S1, S2, S3, S4)`. -/
def Config.maxScan (c : Config) : Int := max (max (max c.S1 c.S2) c.S3) c.S4

/-! ## Transform engine (`transform.go`) -/

/-- The `s` random bytes `randFill` produces, as drawn from stream `rnd`. -/
def randFillBytes (rnd : Nat → Nat) (s : Nat) : List Nat :=
  (List.range s).map (fun i => rnd i % 256)

/-- `TransformOutbound(buf[:n], cfg)`.  `k` models the `rand.IntN` draw a
`Pick` consumes, `rnd` the random padding stream.  `none` models a panic
inside `Pick` (bound wrapped to zero). -/
def TransformOutbound (buf : List Nat) (cfg : Config) (k : Nat) (rnd : Nat → Nat) :
    Option (List Nat × Bool) :=
  if buf.length < 4 then some (buf, false)
  else
    let msgType := readLE32 buf
    if msgType = wgHandshakeInit ∧ buf.length = WgHandshakeInitSize then
      (cfg.H1.pick k).map (fun h =>
        let b1 := writeLE32At buf 0 h
        let b2 := if cfg.ServerPub ≠ zeroKey then recomputeMAC1 b1 cfg.mac1keyServer else b1
        (if cfg.S1 > 0 then randFillBytes rnd cfg.S1.toNat ++ b2 else b2, decide (cfg.Jc > 0)))
    else if msgType = wgHandshakeResponse ∧ buf.length = WgHandshakeResponseSize then
      (cfg.H2.pick k).map (fun h =>
        let b1 := writeLE32At buf 0 h
        (if cfg.S2 > 0 then randFillBytes rnd cfg.S2.toNat ++ b1 else b1, false))
    else if msgType = wgCookieReply ∧ buf.length = WgCookieReplySize then
      (cfg.H3.pick k).map (fun h =>
        let b1 := writeLE32At buf 0 h
        (if cfg.S3 > 0 then randFillBytes rnd cfg.S3.toNat ++ b1 else b1, false))
    else if msgType = wgTransportData ∧ buf.length ≥ WgTransportMinSize then
      if cfg.h4NoOp then some (buf, false)
      else
        (if cfg.H4.Min = cfg.H4.Max then some cfg.h4Fixed else cfg.H4.pick k).map (fun h =>
          let b1 := writeLE32At buf 0 h
          (if cfg.S4 > 0 then randFillBytes rnd cfg.S4.toNat ++ b1 else b1, false))
    else some (buf, false)

/-- The per-offset acceptance test of the inbound scan: some rule
(H4 then H1 then H2 then H3, each with its length constraint) matches at
`off`. -/
def inboundMatch (cfg : Config) (buf : List Nat) (off : Nat) : Bool :=
  let h := readLE32 (buf.drop off)
  let rem := buf.length - off
  (cfg.H4.contains h && decide (rem ≥ WgTransportMinSize)) ||
  (cfg.H1.contains h && decide (rem = WgHandshakeInitSize)) ||
  (cfg.H2.contains h && decide (rem = WgHandshakeResponseSize)) ||
  (cfg.H3.contains h && decide (rem = WgCookieReplySize))

/-- The H2 inbound action: rewrite the type to 2 and, when `ClientPub` is
non-zero, re-sign MAC1 of the 92-byte window with the client key. -/
def inboundH2Rewrite (cfg : Config) (buf : List Nat) (off : Nat) : List Nat :=
  let w := (writeLE32At buf off wgHandshakeResponse).drop off
  if cfg.ClientPub ≠ zeroKey then recomputeMAC1Response w cfg.mac1keyClient else w

/-- The `for off := 0; off <= cfg.maxScan && off+4 <= n; off++` loop of
`TransformInbound`.  `fuel` only drives the recursion; the top-level call
passes `buf.length`, which is more than the loop can consume. -/
def inboundScan (cfg : Config) (buf : List Nat) : Nat → Nat → Option (List Nat)
  | 0, _ => none
  | fuel + 1, off =>
    if (off : Int) ≤ cfg.maxScan ∧ off + 4 ≤ buf.length then
      let h := readLE32 (buf.drop off)
      let rem := buf.length - off
      if cfg.H4.contains h ∧ rem ≥ WgTransportMinSize then
        some ((writeLE32At buf off wgTransportData).drop off)
      else if cfg.H1.contains h ∧ rem = WgHandshakeInitSize then
        some ((writeLE32At buf off wgHandshakeInit).drop off)
      else if cfg.H2.contains h ∧ rem = WgHandshakeResponseSize then
        some (inboundH2Rewrite cfg buf off)
      else if cfg.H3.contains h ∧ rem = WgCookieReplySize then
        some ((writeLE32At buf off wgCookieReply).drop off)
      else inboundScan cfg buf fuel (off + 1)
    else none

/-- `TransformInbound(buf[:n], cfg)`: `none` models `(nil, false)`,
`some out` models `(out, true)`. -/
def TransformInbound (buf : List Nat) (cfg : Config) : Option (List Nat) :=
  if buf.length < 4 then none
  else
    let h := readLE32 buf
    if cfg.H4.contains h ∧ buf.length ≥ WgTransportMinSize then
      if cfg.h4NoOp then some buf else some (writeLE32At buf 0 wgTransportData)
    else inboundScan cfg buf buf.length 0

/-- `GenerateJunkPackets(cfg)`.  `sz i` models the `rand.IntN` draw for
packet `i`'s size, `rnd i j` the random content byte `j` of packet `i`. -/
def GenerateJunkPackets (cfg : Config) (sz : Nat → Nat) (rnd : Nat → Nat → Nat) :
    List (List Nat) :=
  if cfg.Jc ≤ 0 ∨ cfg.Jmax ≤ 0 then []
  else
    let jmin := if cfg.Jmin ≤ 0 then 1 else cfg.Jmin
    let jmax := if cfg.Jmax < jmin then jmin else cfg.Jmax
    (List.range cfg.Jc.toNat).map (fun i =>
      let size : Int := if jmin < jmax then jmin + (sz i % (jmax - jmin + 1).toNat : Nat) else jmin
      (List.range size.toNat).map (fun j => rnd i j % 256))

/-! ## Specification-side definitions

These follow the words of the specification (not the Go control flow) and
are compared with the source-derived definitions above. -/

/-- Spec-side: the condition under which the specification says an offset
is accepted: `off ∈ [0, maxScan]`, `off + 4 ≤ n`, and a rule matches. -/
def inboundCond (cfg : Config) (buf : List Nat) (off : Nat) : Bool :=
  decide ((off : Int) ≤ cfg.maxScan) && decide (off + 4 ≤ buf.length) &&
    inboundMatch cfg buf off

/-- Spec-side: the action of the first matching rule at `off`, rules
tried in the order H4 → H1 → H2 → H3. -/
def inboundApplySpec (cfg : Config) (buf : List Nat) (off : Nat) : List Nat :=
  let h := readLE32 (buf.drop off)
  let rem := buf.length - off
  if cfg.H4.contains h ∧ rem ≥ WgTransportMinSize then
    (writeLE32At buf off wgTransportData).drop off
  else if cfg.H1.contains h ∧ rem = WgHandshakeInitSize then
    (writeLE32At buf off wgHandshakeInit).drop off
  else if cfg.H2.contains h ∧ rem = WgHandshakeResponseSize then
    inboundH2Rewrite cfg buf off
  else (writeLE32At buf off wgCookieReply).drop off

/-- Spec-side reference for `TransformInbound`: act at the smallest
accepted offset, or reject when there is none. -/
def TransformInboundSpec (cfg : Config) (buf : List Nat) : Option (List Nat) :=
  ((List.range buf.length).find? (inboundCond cfg buf)).map (inboundApplySpec cfg buf)

/-! ## Helper lemmas: little-endian fields -/

theorem length_putUint32LE (v : Nat) : (putUint32LE v).length = 4 := rfl

theorem readLE32_put_append (v : Nat) (rest : List Nat) :
    readLE32 (putUint32LE v ++ rest) = v % 4294967296 := by
  simp only [putUint32LE, readLE32, List.cons_append, List.getD_cons_zero,
    List.getD_cons_succ, List.nil_append]
  omega

theorem length_writeLE32At (l : List Nat) (off v : Nat) (h : off + 4 ≤ l.length) :
    (writeLE32At l off v).length = l.length := by
  simp only [writeLE32At, List.length_append, List.length_take, List.length_drop,
    length_putUint32LE]
  omega

theorem drop_writeLE32At (l : List Nat) (off v : Nat) (h : off ≤ l.length) :
    (writeLE32At l off v).drop off = putUint32LE v ++ l.drop (off + 4) := by
  simp only [writeLE32At, List.append_assoc]
  rw [List.drop_left' (by simp [List.length_take]; omega)]

theorem writeLE32At_zero (l : List Nat) (v : Nat) :
    writeLE32At l 0 v = putUint32LE v ++ l.drop 4 := by
  simp [writeLE32At]

theorem readLE32_append (a b : List Nat) (h : 4 ≤ a.length) :
    readLE32 (a ++ b) = readLE32 a := by
  simp only [readLE32]
  rw [List.getD_append _ _ _ _ (by omega), List.getD_append _ _ _ _ (by omega),
    List.getD_append _ _ _ _ (by omega), List.getD_append _ _ _ _ (by omega)]

theorem getD_take (l : List Nat) (n i d : Nat) (h : i < n) :
    (l.take n).getD i d = l.getD i d := by
  simp [List.getD, List.getElem?_take, h]

theorem readLE32_take (l : List Nat) (n : Nat) (h : 4 ≤ n) :
    readLE32 (l.take n) = readLE32 l := by
  simp only [readLE32]
  rw [getD_take _ _ _ _ (by omega), getD_take _ _ _ _ (by omega),
    getD_take _ _ _ _ (by omega), getD_take _ _ _ _ (by omega)]

/-- A buffer of length at least four starts with four explicit bytes. -/
theorem four_cons (l : List Nat) (h : 4 ≤ l.length) :
    ∃ b0 b1 b2 b3 rest, l = b0 :: b1 :: b2 :: b3 :: rest := by
  rcases l with _ | ⟨a, _ | ⟨b, _ | ⟨c, _ | ⟨d, rest⟩⟩⟩⟩
  · simp at h
  · simp at h
  · simp at h
  · simp at h
  · exact ⟨a, b, c, d, rest, rfl⟩

/-- If the first four bytes decode to a value below 256, they are exactly
its canonical little-endian encoding, so rewriting that value in place is
the identity. -/
theorem writeLE32At_self (l : List Nat) (v : Nat) (hl : 4 ≤ l.length)
    (hv : readLE32 l = v) (hv2 : v < 256) : writeLE32At l 0 v = l := by
  obtain ⟨b0, b1, b2, b3, rest, rfl⟩ := four_cons l hl
  simp only [readLE32, List.getD_cons_zero, List.getD_cons_succ] at hv
  have hb0 : b0 = v := by omega
  have hb1 : b1 = 0 := by omega
  have hb2 : b2 = 0 := by omega
  have hb3 : b3 = 0 := by omega
  subst hb0 hb1 hb2 hb3
  have h1 : b0 % 256 = b0 := Nat.mod_eq_of_lt hv2
  have h2 : b0 / 256 = 0 := Nat.div_eq_of_lt (by omega)
  have h3 : b0 / 65536 = 0 := Nat.div_eq_of_lt (by omega)
  have h4 : b0 / 16777216 = 0 := Nat.div_eq_of_lt (by omega)
  simp [writeLE32At, putUint32LE, h1, h2, h3, h4]

/-! ## Helper lemmas: HRange.pick -/

/-- A successful `pick` on a well-formed range lands inside the range. -/
theorem pick_mem (r : HRange) (k v : Nat) (hle : r.Min ≤ r.Max) (hlt : r.Max < 4294967296)
    (h : r.pick k = some v) : r.Min ≤ v ∧ v ≤ r.Max ∧ v < 4294967296 := by
  unfold HRange.pick at h
  by_cases heq : r.Min = r.Max
  · rw [if_pos heq, Option.some.injEq] at h
    omega
  · rw [if_neg heq] at h
    by_cases hb0 : (r.Max + 4294967296 - r.Min + 1) % 4294967296 = 0
    · rw [if_pos hb0] at h
      exact absurd h (by simp)
    · rw [if_neg hb0, Option.some.injEq] at h
      have hkb : k % ((r.Max + 4294967296 - r.Min + 1) % 4294967296) <
          (r.Max + 4294967296 - r.Min + 1) % 4294967296 :=
        Nat.mod_lt _ (Nat.pos_of_ne_zero hb0)
      omega

/-- `contains` in terms of the bounds. -/
theorem contains_iff (r : HRange) (v : Nat) :
    r.contains v = true ↔ (r.Min ≤ v ∧ v ≤ r.Max) := by
  simp [HRange.contains]

/-! ## Helper lemmas: the inbound scan -/

theorem inboundScan_zero (cfg : Config) (buf : List Nat) (off : Nat) :
    inboundScan cfg buf 0 off = none := rfl

theorem inboundScan_succ (cfg : Config) (buf : List Nat) (fuel off : Nat) :
    inboundScan cfg buf (fuel + 1) off =
      if (off : Int) ≤ cfg.maxScan ∧ off + 4 ≤ buf.length then
        if cfg.H4.contains (readLE32 (buf.drop off)) ∧
            buf.length - off ≥ WgTransportMinSize then
          some ((writeLE32At buf off wgTransportData).drop off)
        else if cfg.H1.contains (readLE32 (buf.drop off)) ∧
            buf.length - off = WgHandshakeInitSize then
          some ((writeLE32At buf off wgHandshakeInit).drop off)
        else if cfg.H2.contains (readLE32 (buf.drop off)) ∧
            buf.length - off = WgHandshakeResponseSize then
          some (inboundH2Rewrite cfg buf off)
        else if cfg.H3.contains (readLE32 (buf.drop off)) ∧
            buf.length - off = WgCookieReplySize then
          some ((writeLE32At buf off wgCookieReply).drop off)
        else inboundScan cfg buf fuel (off + 1)
      else none := rfl

theorem inboundMatch_iff (cfg : Config) (buf : List Nat) (off : Nat) :
    inboundMatch cfg buf off = true ↔
      ((cfg.H4.contains (readLE32 (buf.drop off)) = true ∧
          WgTransportMinSize ≤ buf.length - off) ∨
       (cfg.H1.contains (readLE32 (buf.drop off)) = true ∧
          buf.length - off = WgHandshakeInitSize) ∨
       (cfg.H2.contains (readLE32 (buf.drop off)) = true ∧
          buf.length - off = WgHandshakeResponseSize) ∨
       (cfg.H3.contains (readLE32 (buf.drop off)) = true ∧
          buf.length - off = WgCookieReplySize)) := by
  simp only [inboundMatch, Bool.or_eq_true, Bool.and_eq_true, decide_eq_true_eq, ge_iff_le]
  tauto

/-- When some rule matches at `off`, the inlined branch chain of the scan
body computes exactly the spec-side rule action. -/
theorem scanBody_eq_apply (cfg : Config) (buf : List Nat) (off : Nat)
    (alt : Option (List Nat)) (hm : inboundMatch cfg buf off = true) :
    (if cfg.H4.contains (readLE32 (buf.drop off)) ∧
        buf.length - off ≥ WgTransportMinSize then
      some ((writeLE32At buf off wgTransportData).drop off)
    else if cfg.H1.contains (readLE32 (buf.drop off)) ∧
        buf.length - off = WgHandshakeInitSize then
      some ((writeLE32At buf off wgHandshakeInit).drop off)
    else if cfg.H2.contains (readLE32 (buf.drop off)) ∧
        buf.length - off = WgHandshakeResponseSize then
      some (inboundH2Rewrite cfg buf off)
    else if cfg.H3.contains (readLE32 (buf.drop off)) ∧
        buf.length - off = WgCookieReplySize then
      some ((writeLE32At buf off wgCookieReply).drop off)
    else alt) = some (inboundApplySpec cfg buf off) := by
  rw [inboundMatch_iff] at hm
  unfold inboundApplySpec
  by_cases c4 : cfg.H4.contains (readLE32 (buf.drop off)) = true ∧
      buf.length - off ≥ WgTransportMinSize
  · rw [if_pos c4, if_pos c4]
  · rw [if_neg c4, if_neg c4]
    by_cases c1 : cfg.H1.contains (readLE32 (buf.drop off)) = true ∧
        buf.length - off = WgHandshakeInitSize
    · rw [if_pos c1, if_pos c1]
    · rw [if_neg c1, if_neg c1]
      by_cases c2 : cfg.H2.contains (readLE32 (buf.drop off)) = true ∧
          buf.length - off = WgHandshakeResponseSize
      · rw [if_pos c2, if_pos c2]
      · rw [if_neg c2, if_neg c2]
        have c3 : cfg.H3.contains (readLE32 (buf.drop off)) = true ∧
            buf.length - off = WgCookieReplySize := by
          rcases hm with h | h | h | h
          · exact absurd ⟨h.1, h.2⟩ c4
          · exact absurd h c1
          · exact absurd h c2
          · exact h
        rw [if_pos c3]

/-- The scan loop, started at `off` with enough fuel, returns the action
of the first accepted offset at or after `off` (and `none` when there is
none).  This is the bridge between the Go loop and the specification's
"smallest matching offset" description. -/
theorem inboundScan_eq_find (cfg : Config) (buf : List Nat) :
    ∀ fuel off, buf.length ≤ fuel + off →
    inboundScan cfg buf fuel off =
      ((List.range' off (buf.length - off)).find? (inboundCond cfg buf)).map
        (inboundApplySpec cfg buf) := by
  intro fuel
  induction fuel with
  | zero =>
    intro off hoff
    have h0 : buf.length - off = 0 := by omega
    simp [inboundScan_zero, h0]
  | succ fuel ih =>
    intro off hoff
    rw [inboundScan_succ]
    by_cases hg : (off : Int) ≤ cfg.maxScan ∧ off + 4 ≤ buf.length
    · rw [if_pos hg]
      have hsplit : List.range' off (buf.length - off) =
          off :: List.range' (off + 1) (buf.length - (off + 1)) := by
        have h1 : buf.length - off = (buf.length - (off + 1)) + 1 := by omega
        rw [h1, List.range'_succ]
      rw [hsplit]
      by_cases hm : inboundMatch cfg buf off = true
      · have hcond : inboundCond cfg buf off = true := by
          simp only [inboundCond, Bool.and_eq_true, decide_eq_true_eq]
          exact ⟨⟨hg.1, hg.2⟩, hm⟩
        rw [List.find?_cons_of_pos _ hcond, Option.map_some']
        exact scanBody_eq_apply cfg buf off _ hm
      · have hcond : ¬inboundCond cfg buf off = true := by
          simp only [inboundCond, Bool.and_eq_true, decide_eq_true_eq]
          intro hc
          exact hm hc.2
        rw [List.find?_cons_of_neg _ hcond]
        rw [inboundMatch_iff] at hm
        push_neg at hm
        rw [if_neg (by
          intro hc
          have h := hm.1 hc.1
          omega)]
        rw [if_neg (by
          intro hc
          have h := hm.2.1 hc.1
          omega)]
        rw [if_neg (by
          intro hc
          have h := hm.2.2.1 hc.1
          omega)]
        rw [if_neg (by
          intro hc
          have h := hm.2.2.2 hc.1
          omega)]
        exact ih (off + 1) (by omega)
    · rw [if_neg hg]
      symm
      rw [Option.map_eq_none', List.find?_eq_none]
      intro x hx
      rw [List.mem_range'_1] at hx
      simp only [inboundCond, Bool.and_eq_true, decide_eq_true_eq, not_and]
      intro hc _
      exact absurd (by constructor <;> omega : (off : Int) ≤ cfg.maxScan ∧
        off + 4 ≤ buf.length) hg

/-- Unfold the `h4NoOp` flag. -/
theorem h4NoOp_iff (cfg : Config) :
    cfg.h4NoOp = true ↔ (cfg.H4.Min = 4 ∧ cfg.H4.Max = 4 ∧ cfg.S4 = 0) := by
  simp [Config.h4NoOp, wgTransportData, Bool.and_eq_true, decide_eq_true_eq, and_assoc]

/-- `TransformInbound` coincides with the spec-side first-match function
on buffers of at least four bytes when `maxScan` is non-negative. -/
theorem transformInbound_eq_spec_aux (cfg : Config) (buf : List Nat)
    (hlen : 4 ≤ buf.length) (hms : (0 : Int) ≤ cfg.maxScan) :
    TransformInbound buf cfg = TransformInboundSpec cfg buf := by
  unfold TransformInbound TransformInboundSpec
  rw [if_neg (by omega)]
  by_cases hfp : cfg.H4.contains (readLE32 buf) ∧ buf.length ≥ WgTransportMinSize
  · rw [if_pos hfp]
    have hr : List.range buf.length = 0 :: List.range' 1 (buf.length - 1) := by
      obtain ⟨m, hm⟩ : ∃ m, buf.length = m + 1 := ⟨buf.length - 1, by omega⟩
      rw [List.range_eq_range', hm, List.range'_succ]
      norm_num
    have hcond0 : inboundCond cfg buf 0 = true := by
      simp only [inboundCond, Bool.and_eq_true, decide_eq_true_eq]
      refine ⟨⟨by exact_mod_cast hms, by omega⟩, ?_⟩
      rw [inboundMatch_iff]
      exact Or.inl ⟨by simpa using hfp.1, by simpa using hfp.2⟩
    rw [hr, List.find?_cons_of_pos _ hcond0, Option.map_some']
    have happly : inboundApplySpec cfg buf 0 = writeLE32At buf 0 wgTransportData := by
      unfold inboundApplySpec
      rw [if_pos (by simpa using hfp)]
      exact List.drop_zero _
    rw [happly]
    by_cases hno : cfg.h4NoOp = true
    · rw [if_pos hno]
      have hmm := (h4NoOp_iff cfg).mp hno
      have h4v : readLE32 buf = 4 := by
        have hc := (contains_iff cfg.H4 (readLE32 buf)).mp hfp.1
        omega
      rw [writeLE32At_self buf wgTransportData (by omega)
        (by simpa [wgTransportData] using h4v) (by norm_num [wgTransportData])]
    · rw [if_neg hno]
  · rw [if_neg hfp]
    rw [inboundScan_eq_find cfg buf buf.length 0 (by omega)]
    rw [List.range_eq_range']
    congr 1

/-- If no offset below `j` matches, `j` is inside the scan window and a
rule matches at `j`, then `TransformInbound` accepts and acts at `j`. -/
theorem inbound_first_match (cfg : Config) (buf : List Nat) (j : Nat)
    (hjm : (j : Int) ≤ cfg.maxScan)
    (hj4 : j + 4 ≤ buf.length)
    (hpre : ∀ i, i < j → inboundMatch cfg buf i = false)
    (hmj : inboundMatch cfg buf j = true) :
    TransformInbound buf cfg = some (inboundApplySpec cfg buf j) := by
  have hms : (0 : Int) ≤ cfg.maxScan := le_trans (by exact_mod_cast Nat.zero_le j) hjm
  rw [transformInbound_eq_spec_aux cfg buf (by omega) hms]
  unfold TransformInboundSpec
  have hsplit : List.range buf.length =
      List.range' 0 j ++ List.range' j (buf.length - j) := by
    rw [List.range_eq_range']
    have h0 := List.range'_append 0 j (buf.length - j) 1
    simp only [Nat.one_mul, Nat.zero_add] at h0
    have h2 : buf.length - j + j = buf.length := by omega
    rw [h2] at h0
    rw [← h0]
  rw [hsplit, List.find?_append]
  have hnone : (List.range' 0 j).find? (inboundCond cfg buf) = none := by
    rw [List.find?_eq_none]
    intro x hx
    rw [List.mem_range'_1] at hx
    simp only [inboundCond, Bool.and_eq_true, decide_eq_true_eq, not_and]
    intro _ hm
    rw [hpre x (by omega)] at hm
    exact absurd hm (by simp)
  rw [hnone, Option.none_or]
  have hj : List.range' j (buf.length - j) = j :: List.range' (j + 1) (buf.length - (j + 1)) := by
    have h1 : buf.length - j = (buf.length - (j + 1)) + 1 := by omega
    rw [h1, List.range'_succ]
  rw [hj, List.find?_cons_of_pos _ (by
    simp only [inboundCond, Bool.and_eq_true, decide_eq_true_eq]
    exact ⟨⟨hjm, hj4⟩, hmj⟩)]
  rw [Option.map_some']

/-! ## Helper lemmas: shapes of inbound results -/

theorem length_blake2sSum (s : blake2sState) : (blake2sSum s).length = 32 := by
  have h8 : List.range 8 = [0, 1, 2, 3, 4, 5, 6, 7] := rfl
  simp [blake2sSum, h8, putUint32LE]

theorem length_blake2s128MAC (key data : List Nat) : (blake2s128MAC key data).length = 16 := by
  simp [blake2s128MAC, length_blake2sSum]

theorem inboundH2Rewrite_eq (cfg : Config) (buf : List Nat) (off : Nat)
    (hoff : off + 4 ≤ buf.length) :
    inboundH2Rewrite cfg buf off =
      if cfg.ClientPub ≠ zeroKey then
        recomputeMAC1Response (putUint32LE wgHandshakeResponse ++ buf.drop (off + 4))
          cfg.mac1keyClient
      else putUint32LE wgHandshakeResponse ++ buf.drop (off + 4) := by
  unfold inboundH2Rewrite
  rw [drop_writeLE32At buf off wgHandshakeResponse (by omega)]

theorem length_inboundH2Rewrite (cfg : Config) (buf : List Nat) (off : Nat)
    (hoff : off + 4 ≤ buf.length) (hrem : buf.length - off = WgHandshakeResponseSize) :
    (inboundH2Rewrite cfg buf off).length = WgHandshakeResponseSize := by
  rw [inboundH2Rewrite_eq cfg buf off hoff]
  have hwlen : (putUint32LE wgHandshakeResponse ++ buf.drop (off + 4)).length = 92 := by
    simp only [List.length_append, length_putUint32LE, List.length_drop]
    simp only [WgHandshakeResponseSize] at hrem
    omega
  by_cases hc : cfg.ClientPub ≠ zeroKey
  · rw [if_pos hc]
    unfold recomputeMAC1Response
    simp only [List.length_append, List.length_take, List.length_drop,
      length_blake2s128MAC, hwlen, WgHandshakeResponseSize]
    norm_num
  · rw [if_neg hc]
    exact hwlen

theorem readLE32_inboundH2Rewrite (cfg : Config) (buf : List Nat) (off : Nat)
    (hoff : off + 4 ≤ buf.length) (hrem : buf.length - off = WgHandshakeResponseSize) :
    readLE32 (inboundH2Rewrite cfg buf off) = wgHandshakeResponse := by
  rw [inboundH2Rewrite_eq cfg buf off hoff]
  have hwlen : (putUint32LE wgHandshakeResponse ++ buf.drop (off + 4)).length = 92 := by
    simp only [List.length_append, length_putUint32LE, List.length_drop]
    simp only [WgHandshakeResponseSize] at hrem
    omega
  have hread : readLE32 (putUint32LE wgHandshakeResponse ++ buf.drop (off + 4)) =
      wgHandshakeResponse := by
    rw [readLE32_put_append]
    rfl
  by_cases hc : cfg.ClientPub ≠ zeroKey
  · rw [if_pos hc]
    unfold recomputeMAC1Response
    rw [List.append_assoc, readLE32_append _ _ (by
      simp only [List.length_take, hwlen]
      omega)]
    rw [readLE32_take _ _ (by omega)]
    exact hread
  · rw [if_neg hc]
    exact hread

/-- Whatever rule fires, `inboundApplySpec` produces a well-formed
standard WireGuard packet: restored type with the matching length. -/
theorem apply_shape (cfg : Config) (buf : List Nat) (off : Nat)
    (hoff : off + 4 ≤ buf.length) (hm : inboundMatch cfg buf off = true) :
    (readLE32 (inboundApplySpec cfg buf off) = wgHandshakeInit ∧
        (inboundApplySpec cfg buf off).length = WgHandshakeInitSize) ∨
    (readLE32 (inboundApplySpec cfg buf off) = wgHandshakeResponse ∧
        (inboundApplySpec cfg buf off).length = WgHandshakeResponseSize) ∨
    (readLE32 (inboundApplySpec cfg buf off) = wgCookieReply ∧
        (inboundApplySpec cfg buf off).length = WgCookieReplySize) ∨
    (readLE32 (inboundApplySpec cfg buf off) = wgTransportData ∧
        WgTransportMinSize ≤ (inboundApplySpec cfg buf off).length) := by
  rw [inboundMatch_iff] at hm
  unfold inboundApplySpec
  by_cases c4 : cfg.H4.contains (readLE32 (buf.drop off)) = true ∧
      buf.length - off ≥ WgTransportMinSize
  · rw [if_pos c4]
    refine Or.inr (Or.inr (Or.inr ?_))
    rw [drop_writeLE32At buf off wgTransportData (by omega)]
    constructor
    · rw [readLE32_put_append]
      rfl
    · simp only [List.length_append, length_putUint32LE, List.length_drop]
      have := c4.2
      simp only [WgTransportMinSize, ge_iff_le] at this ⊢
      omega
  · rw [if_neg c4]
    by_cases c1 : cfg.H1.contains (readLE32 (buf.drop off)) = true ∧
        buf.length - off = WgHandshakeInitSize
    · rw [if_pos c1]
      refine Or.inl ?_
      rw [drop_writeLE32At buf off wgHandshakeInit (by omega)]
      constructor
      · rw [readLE32_put_append]
        rfl
      · simp only [List.length_append, length_putUint32LE, List.length_drop]
        have := c1.2
        simp only [WgHandshakeInitSize] at this ⊢
        omega
    · rw [if_neg c1]
      by_cases c2 : cfg.H2.contains (readLE32 (buf.drop off)) = true ∧
          buf.length - off = WgHandshakeResponseSize
      · rw [if_pos c2]
        exact Or.inr (Or.inl ⟨readLE32_inboundH2Rewrite cfg buf off hoff c2.2,
          length_inboundH2Rewrite cfg buf off hoff c2.2⟩)
      · rw [if_neg c2]
        have c3 : cfg.H3.contains (readLE32 (buf.drop off)) = true ∧
            buf.length - off = WgCookieReplySize := by
          rcases hm with h | h | h | h
          · exact absurd ⟨h.1, h.2⟩ c4
          · exact absurd h c1
          · exact absurd h c2
          · exact h
        refine Or.inr (Or.inr (Or.inl ?_))
        rw [drop_writeLE32At buf off wgCookieReply (by omega)]
        constructor
        · rw [readLE32_put_append]
          rfl
        · simp only [List.length_append, length_putUint32LE, List.length_drop]
          have := c3.2
          simp only [WgCookieReplySize] at this ⊢
          omega

/-- Every packet `TransformInbound` accepts is well-formed standard
WireGuard: type in `{1,2,3,4}` with the matching length constraint. -/
theorem inbound_some_shape_aux (cfg : Config) (buf : List Nat) (r : List Nat)
    (h : TransformInbound buf cfg = some r) :
    (readLE32 r = wgHandshakeInit ∧ r.length = WgHandshakeInitSize) ∨
    (readLE32 r = wgHandshakeResponse ∧ r.length = WgHandshakeResponseSize) ∨
    (readLE32 r = wgCookieReply ∧ r.length = WgCookieReplySize) ∨
    (readLE32 r = wgTransportData ∧ WgTransportMinSize ≤ r.length) := by
  unfold TransformInbound at h
  by_cases hlen : buf.length < 4
  · rw [if_pos hlen] at h
    exact absurd h (by simp)
  · rw [if_neg hlen] at h
    by_cases hfp : cfg.H4.contains (readLE32 buf) ∧ buf.length ≥ WgTransportMinSize
    · rw [if_pos hfp] at h
      by_cases hno : cfg.h4NoOp = true
      · rw [if_pos hno] at h
        have hr : r = buf := by
          injection h with h2
          exact h2.symm
        subst hr
        have hmm := (h4NoOp_iff cfg).mp hno
        have hc := (contains_iff cfg.H4 (readLE32 r)).mp hfp.1
        refine Or.inr (Or.inr (Or.inr ⟨?_, hfp.2⟩))
        simp only [wgTransportData]
        omega
      · rw [if_neg hno] at h
        have hr : r = writeLE32At buf 0 wgTransportData := by
          injection h with h2
          exact h2.symm
        subst hr
        refine Or.inr (Or.inr (Or.inr ⟨?_, ?_⟩))
        · rw [writeLE32At_zero, readLE32_put_append]
          rfl
        · rw [length_writeLE32At _ _ _ (by omega)]
          exact hfp.2
    · rw [if_neg hfp] at h
      rw [inboundScan_eq_find cfg buf buf.length 0 (by omega)] at h
      rw [Option.map_eq_some'] at h
      obtain ⟨off, hfind, happ⟩ := h
      have hcond := List.find?_some hfind
      simp only [inboundCond, Bool.and_eq_true, decide_eq_true_eq] at hcond
      subst happ
      exact apply_shape cfg buf off hcond.1.2 hcond.2

/-! ## Helper lemmas: TransformOutbound inversions -/

theorem length_randFillBytes (rnd : Nat → Nat) (s : Nat) :
    (randFillBytes rnd s).length = s := by
  simp [randFillBytes]

/-- Inversion of the handshake-init path of `TransformOutbound`. -/
theorem outbound_init_some (buf : List Nat) (cfg : Config) (k : Nat) (rnd : Nat → Nat)
    (out : List Nat) (sj : Bool)
    (h1 : readLE32 buf = wgHandshakeInit) (hlen : buf.length = WgHandshakeInitSize)
    (hout : TransformOutbound buf cfg k rnd = some (out, sj)) :
    ∃ h, cfg.H1.pick k = some h ∧
      out = (if cfg.S1 > 0 then randFillBytes rnd cfg.S1.toNat else []) ++
        (if cfg.ServerPub ≠ zeroKey then recomputeMAC1 (writeLE32At buf 0 h) cfg.mac1keyServer
         else writeLE32At buf 0 h) ∧
      sj = decide (cfg.Jc > 0) := by
  simp only [TransformOutbound] at hout
  rw [if_neg (by rw [hlen]; norm_num [WgHandshakeInitSize])] at hout
  rw [if_pos (show readLE32 buf = wgHandshakeInit ∧ buf.length = WgHandshakeInitSize from
    ⟨h1, hlen⟩)] at hout
  rw [Option.map_eq_some'] at hout
  obtain ⟨h, hpick, heq⟩ := hout
  simp only [Prod.mk.injEq] at heq
  refine ⟨h, hpick, ?_, heq.2.symm⟩
  rw [← heq.1]
  by_cases hS : cfg.S1 > 0
  · rw [if_pos hS, if_pos hS]
  · rw [if_neg hS, if_neg hS, List.nil_append]

/-- Inversion of the handshake-response path of `TransformOutbound`. -/
theorem outbound_response_some (buf : List Nat) (cfg : Config) (k : Nat) (rnd : Nat → Nat)
    (out : List Nat) (sj : Bool)
    (h2 : readLE32 buf = wgHandshakeResponse) (hlen : buf.length = WgHandshakeResponseSize)
    (hout : TransformOutbound buf cfg k rnd = some (out, sj)) :
    ∃ h, cfg.H2.pick k = some h ∧
      out = (if cfg.S2 > 0 then randFillBytes rnd cfg.S2.toNat else []) ++
        writeLE32At buf 0 h ∧
      sj = false := by
  simp only [TransformOutbound] at hout
  rw [if_neg (by rw [hlen]; norm_num [WgHandshakeResponseSize])] at hout
  rw [if_neg (by
    intro hc
    rw [h2] at hc
    exact absurd hc.1 (by norm_num [wgHandshakeResponse, wgHandshakeInit]))] at hout
  rw [if_pos (show readLE32 buf = wgHandshakeResponse ∧ buf.length = WgHandshakeResponseSize
    from ⟨h2, hlen⟩)] at hout
  rw [Option.map_eq_some'] at hout
  obtain ⟨h, hpick, heq⟩ := hout
  simp only [Prod.mk.injEq] at heq
  refine ⟨h, hpick, ?_, heq.2.symm⟩
  rw [← heq.1]
  by_cases hS : cfg.S2 > 0
  · rw [if_pos hS, if_pos hS]
  · rw [if_neg hS, if_neg hS, List.nil_append]

/-- Inversion of the cookie-reply path of `TransformOutbound`. -/
theorem outbound_cookie_some (buf : List Nat) (cfg : Config) (k : Nat) (rnd : Nat → Nat)
    (out : List Nat) (sj : Bool)
    (h3 : readLE32 buf = wgCookieReply) (hlen : buf.length = WgCookieReplySize)
    (hout : TransformOutbound buf cfg k rnd = some (out, sj)) :
    ∃ h, cfg.H3.pick k = some h ∧
      out = (if cfg.S3 > 0 then randFillBytes rnd cfg.S3.toNat else []) ++
        writeLE32At buf 0 h ∧
      sj = false := by
  simp only [TransformOutbound] at hout
  rw [if_neg (by rw [hlen]; norm_num [WgCookieReplySize])] at hout
  rw [if_neg (by
    intro hc
    rw [h3] at hc
    exact absurd hc.1 (by norm_num [wgCookieReply, wgHandshakeInit]))] at hout
  rw [if_neg (by
    intro hc
    rw [h3] at hc
    exact absurd hc.1 (by norm_num [wgCookieReply, wgHandshakeResponse]))] at hout
  rw [if_pos (show readLE32 buf = wgCookieReply ∧ buf.length = WgCookieReplySize
    from ⟨h3, hlen⟩)] at hout
  rw [Option.map_eq_some'] at hout
  obtain ⟨h, hpick, heq⟩ := hout
  simp only [Prod.mk.injEq] at heq
  refine ⟨h, hpick, ?_, heq.2.symm⟩
  rw [← heq.1]
  by_cases hS : cfg.S3 > 0
  · rw [if_pos hS, if_pos hS]
  · rw [if_neg hS, if_neg hS, List.nil_append]

/-- Inversion of the transport-data path of `TransformOutbound`. -/
theorem outbound_transport_some (buf : List Nat) (cfg : Config) (k : Nat) (rnd : Nat → Nat)
    (out : List Nat) (sj : Bool)
    (h4 : readLE32 buf = wgTransportData) (hlen : WgTransportMinSize ≤ buf.length)
    (hout : TransformOutbound buf cfg k rnd = some (out, sj)) :
    (cfg.h4NoOp = true ∧ out = buf ∧ sj = false) ∨
    (cfg.h4NoOp = false ∧ ∃ h,
      (if cfg.H4.Min = cfg.H4.Max then some cfg.h4Fixed else cfg.H4.pick k) = some h ∧
      out = (if cfg.S4 > 0 then randFillBytes rnd cfg.S4.toNat else []) ++
        writeLE32At buf 0 h ∧
      sj = false) := by
  simp only [TransformOutbound] at hout
  rw [if_neg (by simp only [WgTransportMinSize] at hlen; omega)] at hout
  rw [if_neg (by
    intro hc
    rw [h4] at hc
    exact absurd hc.1 (by norm_num [wgTransportData, wgHandshakeInit]))] at hout
  rw [if_neg (by
    intro hc
    rw [h4] at hc
    exact absurd hc.1 (by norm_num [wgTransportData, wgHandshakeResponse]))] at hout
  rw [if_neg (by
    intro hc
    rw [h4] at hc
    exact absurd hc.1 (by norm_num [wgTransportData, wgCookieReply]))] at hout
  rw [if_pos (show readLE32 buf = wgTransportData ∧ WgTransportMinSize ≤ buf.length
    from ⟨h4, hlen⟩)] at hout
  by_cases hno : cfg.h4NoOp = true
  · rw [if_pos hno] at hout
    refine Or.inl ⟨hno, ?_, ?_⟩
    · injection hout with hp
      exact (congrArg Prod.fst hp).symm
    · injection hout with hp
      exact (congrArg Prod.snd hp).symm
  · rw [if_neg hno] at hout
    rw [Option.map_eq_some'] at hout
    obtain ⟨h, hpick, heq⟩ := hout
    simp only [Prod.mk.injEq] at heq
    refine Or.inr ⟨by simpa using hno, h, hpick, ?_, heq.2.symm⟩
    rw [← heq.1]
    by_cases hS : cfg.S4 > 0
    · rw [if_pos hS, if_pos hS]
    · rw [if_neg hS, if_neg hS, List.nil_append]

/-! ## Helper lemmas: the outbound/inbound roundtrip -/

theorem disjoint_contains (r q : HRange) (v : Nat)
    (hd : r.Max < q.Min ∨ q.Max < r.Min) (hv : r.contains v = true) :
    q.contains v = false := by
  cases hq : q.contains v
  · rfl
  · rw [contains_iff] at hv hq
    omega

theorem S1_le_maxScan (c : Config) : c.S1 ≤ c.maxScan := by
  simp only [Config.maxScan, le_max_iff]
  exact Or.inl (Or.inl (Or.inl le_rfl))

theorem S2_le_maxScan (c : Config) : c.S2 ≤ c.maxScan := by
  simp only [Config.maxScan, le_max_iff]
  exact Or.inl (Or.inl (Or.inr le_rfl))

theorem S3_le_maxScan (c : Config) : c.S3 ≤ c.maxScan := by
  simp only [Config.maxScan, le_max_iff]
  exact Or.inl (Or.inr le_rfl)

theorem S4_le_maxScan (c : Config) : c.S4 ≤ c.maxScan := by
  simp only [Config.maxScan, le_max_iff]
  exact Or.inr le_rfl

theorem length_padIf (rnd : Nat → Nat) (S : Int) :
    ((if S > 0 then randFillBytes rnd S.toNat else []) : List Nat).length = S.toNat := by
  by_cases hS : S > 0
  · rw [if_pos hS, length_randFillBytes]
  · rw [if_neg hS]
    simp only [List.length_nil]
    omega

/-- Padded, type-rewritten handshake packets are recovered by the scan at
the padding boundary when no earlier offset matches and the written type
is outside `H4`. -/
theorem padded_roundtrip (cfg : Config) (p pad : List Nat) (h t : Nat)
    (hp4 : 4 ≤ p.length) (hh : h < 4294967296)
    (hjm : ((pad.length : Nat) : Int) ≤ cfg.maxScan)
    (hpre : ∀ i ∈ List.range pad.length,
      inboundMatch cfg (pad ++ writeLE32At p 0 h) i = false)
    (hc4 : cfg.H4.contains h = false)
    (trule : (t = wgHandshakeInit ∧ cfg.H1.contains h = true ∧
                p.length = WgHandshakeInitSize) ∨
             (t = wgHandshakeResponse ∧ cfg.H2.contains h = true ∧
                p.length = WgHandshakeResponseSize ∧ cfg.ClientPub = zeroKey) ∨
             (t = wgCookieReply ∧ cfg.H3.contains h = true ∧
                p.length = WgCookieReplySize)) :
    TransformInbound (pad ++ writeLE32At p 0 h) cfg =
      some (putUint32LE t ++ p.drop 4) := by
  have hclen : (writeLE32At p 0 h).length = p.length := length_writeLE32At _ _ _ (by omega)
  have hblen : (pad ++ writeLE32At p 0 h).length = pad.length + p.length := by
    rw [List.length_append, hclen]
  have hdropP : (pad ++ writeLE32At p 0 h).drop pad.length = writeLE32At p 0 h :=
    List.drop_left' rfl
  have hread : readLE32 ((pad ++ writeLE32At p 0 h).drop pad.length) = h := by
    rw [hdropP, writeLE32At_zero, readLE32_put_append, Nat.mod_eq_of_lt hh]
  have hrem : (pad ++ writeLE32At p 0 h).length - pad.length = p.length := by omega
  have hdrop4 : (pad ++ writeLE32At p 0 h).drop (pad.length + 4) = p.drop 4 := by
    rw [← List.drop_drop, hdropP, writeLE32At_zero, List.drop_left' (length_putUint32LE h)]
  have hmatch : inboundMatch cfg (pad ++ writeLE32At p 0 h) pad.length = true := by
    rw [inboundMatch_iff, hread, hrem]
    rcases trule with ⟨_, hc, hl⟩ | ⟨_, hc, hl, _⟩ | ⟨_, hc, hl⟩
    · exact Or.inr (Or.inl ⟨hc, hl⟩)
    · exact Or.inr (Or.inr (Or.inl ⟨hc, hl⟩))
    · exact Or.inr (Or.inr (Or.inr ⟨hc, hl⟩))
  rw [inbound_first_match cfg (pad ++ writeLE32At p 0 h) pad.length hjm (by omega)
    (fun i hi => hpre i (List.mem_range.mpr hi)) hmatch]
  congr 1
  unfold inboundApplySpec
  rw [if_neg (by
    intro hc
    rw [hread, hc4] at hc
    exact absurd hc.1 (by simp))]
  rcases trule with ⟨ht, hc, hl⟩ | ⟨ht, hc, hl, hcp⟩ | ⟨ht, hc, hl⟩
  · rw [if_pos (by rw [hread, hrem]; exact ⟨hc, hl⟩)]
    rw [drop_writeLE32At _ _ _ (by omega), hdrop4, ht]
  · rw [if_neg (by
      rw [hread, hrem, hl]
      intro hcc
      exact absurd hcc.2 (by norm_num [WgHandshakeResponseSize, WgHandshakeInitSize]))]
    rw [if_pos (by rw [hread, hrem]; exact ⟨hc, hl⟩)]
    rw [inboundH2Rewrite_eq cfg _ _ (by omega)]
    rw [if_neg (by simp [hcp]), hdrop4, ht]
  · rw [if_neg (by
      rw [hread, hrem, hl]
      intro hcc
      exact absurd hcc.2 (by norm_num [WgCookieReplySize, WgHandshakeInitSize]))]
    rw [if_neg (by
      rw [hread, hrem, hl]
      intro hcc
      exact absurd hcc.2 (by norm_num [WgCookieReplySize, WgHandshakeResponseSize]))]
    rw [drop_writeLE32At _ _ _ (by omega), hdrop4, ht]

/-- Padded, type-rewritten transport packets are recovered at the padding
boundary: the H4 rule wins there. -/
theorem padded_roundtrip4 (cfg : Config) (p pad : List Nat) (h : Nat)
    (hp32 : WgTransportMinSize ≤ p.length) (hh : h < 4294967296)
    (hjm : ((pad.length : Nat) : Int) ≤ cfg.maxScan)
    (hpre : ∀ i ∈ List.range pad.length,
      inboundMatch cfg (pad ++ writeLE32At p 0 h) i = false)
    (hc4 : cfg.H4.contains h = true) :
    TransformInbound (pad ++ writeLE32At p 0 h) cfg =
      some (putUint32LE wgTransportData ++ p.drop 4) := by
  have hp4 : 4 ≤ p.length := by
    simp only [WgTransportMinSize] at hp32
    omega
  have hclen : (writeLE32At p 0 h).length = p.length := length_writeLE32At _ _ _ (by omega)
  have hblen : (pad ++ writeLE32At p 0 h).length = pad.length + p.length := by
    rw [List.length_append, hclen]
  have hdropP : (pad ++ writeLE32At p 0 h).drop pad.length = writeLE32At p 0 h :=
    List.drop_left' rfl
  have hread : readLE32 ((pad ++ writeLE32At p 0 h).drop pad.length) = h := by
    rw [hdropP, writeLE32At_zero, readLE32_put_append, Nat.mod_eq_of_lt hh]
  have hrem : (pad ++ writeLE32At p 0 h).length - pad.length = p.length := by omega
  have hdrop4 : (pad ++ writeLE32At p 0 h).drop (pad.length + 4) = p.drop 4 := by
    rw [← List.drop_drop, hdropP, writeLE32At_zero, List.drop_left' (length_putUint32LE h)]
  have hmatch : inboundMatch cfg (pad ++ writeLE32At p 0 h) pad.length = true := by
    rw [inboundMatch_iff, hread, hrem]
    exact Or.inl ⟨hc4, hp32⟩
  rw [inbound_first_match cfg (pad ++ writeLE32At p 0 h) pad.length hjm (by omega)
    (fun i hi => hpre i (List.mem_range.mpr hi)) hmatch]
  congr 1
  unfold inboundApplySpec
  rw [if_pos (by rw [hread, hrem]; exact ⟨hc4, hp32⟩)]
  rw [drop_writeLE32At _ _ _ (by omega), hdrop4]

/-! ## Claim C1: outbound/inbound roundtrip -/

/-- Configuration with `H1` and `H4` overlapping (`[5,5]` both), all
padding zero and zero peer keys; used to refute the universal roundtrip
claim. -/
def cexRoundtripCfg : Config :=
  ⟨0, 1, 1, 0, 0, 0, 0, ⟨5, 5⟩, ⟨2, 2⟩, ⟨3, 3⟩, ⟨5, 5⟩,
   [none, none, none, none, none], zeroKey, zeroKey, 180, 0⟩

/-- A well-formed 148-byte handshake-init packet. -/
def cexRoundtripPkt : List Nat := putUint32LE wgHandshakeInit ++ List.replicate 144 0

/-- C1 is false as stated: with the (configurable) overlap `H1 = H4 =
[5,5]`, a 148-byte handshake-init is rewritten outbound to type 5, and
`TransformInbound` then hits the H4 fast path and rewrites the type to 4
instead of restoring the original type 1. -/
theorem roundtrip_not_universal :
    TransformOutbound cexRoundtripPkt cexRoundtripCfg 0 (fun _ => 0) =
      some (putUint32LE 5 ++ List.replicate 144 0, false) ∧
    TransformInbound (putUint32LE 5 ++ List.replicate 144 0) cexRoundtripCfg =
      some (putUint32LE 4 ++ List.replicate 144 0) ∧
    readLE32 (putUint32LE 4 ++ List.replicate 144 0) ≠ readLE32 cexRoundtripPkt := by
  refine ⟨by decide, by decide, by decide⟩

/-- C1 (amended): for configurations whose `H` ranges are well-formed
32-bit ranges with `H4` disjoint from `H1`, `H2` and `H3`, whose peer
public keys are zero and whose `maxScan` is non-negative, and whenever no
offset strictly inside the prepended padding of the transformed packet
accidentally matches an inbound rule, `TransformInbound` accepts the
output of `TransformOutbound` on any packet of the four classified
shapes, restores the original little-endian type field, and preserves
bytes `[4..n]`. -/
theorem roundtrip_restores_packet (cfg : Config) (p : List Nat) (k : Nat) (rnd : Nat → Nat)
    (out : List Nat) (sj : Bool)
    (hH1 : cfg.H1.Min ≤ cfg.H1.Max ∧ cfg.H1.Max < 4294967296)
    (hH2 : cfg.H2.Min ≤ cfg.H2.Max ∧ cfg.H2.Max < 4294967296)
    (hH3 : cfg.H3.Min ≤ cfg.H3.Max ∧ cfg.H3.Max < 4294967296)
    (hH4 : cfg.H4.Min ≤ cfg.H4.Max ∧ cfg.H4.Max < 4294967296)
    (hd1 : cfg.H1.Max < cfg.H4.Min ∨ cfg.H4.Max < cfg.H1.Min)
    (hd2 : cfg.H2.Max < cfg.H4.Min ∨ cfg.H4.Max < cfg.H2.Min)
    (hd3 : cfg.H3.Max < cfg.H4.Min ∨ cfg.H4.Max < cfg.H3.Min)
    (hsp : cfg.ServerPub = zeroKey) (hcp : cfg.ClientPub = zeroKey)
    (hms : (0 : Int) ≤ cfg.maxScan)
    (hshape : (readLE32 p = wgHandshakeInit ∧ p.length = WgHandshakeInitSize) ∨
              (readLE32 p = wgHandshakeResponse ∧ p.length = WgHandshakeResponseSize) ∨
              (readLE32 p = wgCookieReply ∧ p.length = WgCookieReplySize) ∨
              (readLE32 p = wgTransportData ∧ WgTransportMinSize ≤ p.length))
    (hout : TransformOutbound p cfg k rnd = some (out, sj))
    (halias : ∀ i ∈ List.range (out.length - p.length), inboundMatch cfg out i = false) :
    ∃ r, TransformInbound out cfg = some r ∧
      readLE32 r = readLE32 p ∧ r.drop 4 = p.drop 4 := by
  rcases hshape with ⟨ht, hlen⟩ | ⟨ht, hlen⟩ | ⟨ht, hlen⟩ | ⟨ht, hlen⟩
  · -- handshake init
    obtain ⟨h, hpick, hdef, hsj⟩ := outbound_init_some p cfg k rnd out sj ht hlen hout
    rw [if_neg (show ¬cfg.ServerPub ≠ zeroKey by simp [hsp])] at hdef
    have hmem := pick_mem cfg.H1 k h hH1.1 hH1.2 hpick
    have hc1 : cfg.H1.contains h = true := (contains_iff _ _).mpr ⟨hmem.1, hmem.2.1⟩
    have hc4 : cfg.H4.contains h = false := disjoint_contains _ _ _ hd1 hc1
    have hp4 : 4 ≤ p.length := by rw [hlen]; norm_num [WgHandshakeInitSize]
    subst hdef
    have harg : ((if cfg.S1 > 0 then randFillBytes rnd cfg.S1.toNat else []) ++
        writeLE32At p 0 h).length - p.length =
        ((if cfg.S1 > 0 then randFillBytes rnd cfg.S1.toNat else []) : List Nat).length := by
      rw [List.length_append, length_writeLE32At _ _ _ (by omega)]
      omega
    rw [harg] at halias
    refine ⟨putUint32LE wgHandshakeInit ++ p.drop 4, ?_, ?_, ?_⟩
    · exact padded_roundtrip cfg p _ h wgHandshakeInit hp4 hmem.2.2
        (by rw [length_padIf]; have := S1_le_maxScan cfg; omega) halias hc4
        (Or.inl ⟨rfl, hc1, hlen⟩)
    · rw [readLE32_put_append, ht]
      rfl
    · rw [List.drop_left' (length_putUint32LE _)]
  · -- handshake response
    obtain ⟨h, hpick, hdef, hsj⟩ := outbound_response_some p cfg k rnd out sj ht hlen hout
    have hmem := pick_mem cfg.H2 k h hH2.1 hH2.2 hpick
    have hc2 : cfg.H2.contains h = true := (contains_iff _ _).mpr ⟨hmem.1, hmem.2.1⟩
    have hc4 : cfg.H4.contains h = false := disjoint_contains _ _ _ hd2 hc2
    have hp4 : 4 ≤ p.length := by rw [hlen]; norm_num [WgHandshakeResponseSize]
    subst hdef
    have harg : ((if cfg.S2 > 0 then randFillBytes rnd cfg.S2.toNat else []) ++
        writeLE32At p 0 h).length - p.length =
        ((if cfg.S2 > 0 then randFillBytes rnd cfg.S2.toNat else []) : List Nat).length := by
      rw [List.length_append, length_writeLE32At _ _ _ (by omega)]
      omega
    rw [harg] at halias
    refine ⟨putUint32LE wgHandshakeResponse ++ p.drop 4, ?_, ?_, ?_⟩
    · exact padded_roundtrip cfg p _ h wgHandshakeResponse hp4 hmem.2.2
        (by rw [length_padIf]; have := S2_le_maxScan cfg; omega) halias hc4
        (Or.inr (Or.inl ⟨rfl, hc2, hlen, hcp⟩))
    · rw [readLE32_put_append, ht]
      rfl
    · rw [List.drop_left' (length_putUint32LE _)]
  · -- cookie reply
    obtain ⟨h, hpick, hdef, hsj⟩ := outbound_cookie_some p cfg k rnd out sj ht hlen hout
    have hmem := pick_mem cfg.H3 k h hH3.1 hH3.2 hpick
    have hc3 : cfg.H3.contains h = true := (contains_iff _ _).mpr ⟨hmem.1, hmem.2.1⟩
    have hc4 : cfg.H4.contains h = false := disjoint_contains _ _ _ hd3 hc3
    have hp4 : 4 ≤ p.length := by rw [hlen]; norm_num [WgCookieReplySize]
    subst hdef
    have harg : ((if cfg.S3 > 0 then randFillBytes rnd cfg.S3.toNat else []) ++
        writeLE32At p 0 h).length - p.length =
        ((if cfg.S3 > 0 then randFillBytes rnd cfg.S3.toNat else []) : List Nat).length := by
      rw [List.length_append, length_writeLE32At _ _ _ (by omega)]
      omega
    rw [harg] at halias
    refine ⟨putUint32LE wgCookieReply ++ p.drop 4, ?_, ?_, ?_⟩
    · exact padded_roundtrip cfg p _ h wgCookieReply hp4 hmem.2.2
        (by rw [length_padIf]; have := S3_le_maxScan cfg; omega) halias hc4
        (Or.inr (Or.inr ⟨rfl, hc3, hlen⟩))
    · rw [readLE32_put_append, ht]
      rfl
    · rw [List.drop_left' (length_putUint32LE _)]
  · -- transport data
    have hp4 : 4 ≤ p.length := by
      simp only [WgTransportMinSize] at hlen
      omega
    rcases outbound_transport_some p cfg k rnd out sj ht hlen hout with
      ⟨hno, hob, hsj⟩ | ⟨hno, h, hpick, hdef, hsj⟩
    · -- h4NoOp: the buffer is returned untouched
      have hmm := (h4NoOp_iff cfg).mp hno
      have hself : writeLE32At p 0 wgTransportData = p :=
        writeLE32At_self p wgTransportData (by omega) ht (by norm_num [wgTransportData])
      have hob2 : out = [] ++ writeLE32At p 0 wgTransportData := by
        rw [hself, List.nil_append, hob]
      subst hob2
      refine ⟨putUint32LE wgTransportData ++ p.drop 4, ?_, ?_, ?_⟩
      · refine padded_roundtrip4 cfg p [] wgTransportData hlen (by norm_num [wgTransportData])
          (by simpa using hms) (by simp)
          ((contains_iff cfg.H4 wgTransportData).mpr ?_)
        simp only [wgTransportData]
        omega
      · rw [readLE32_put_append, ht]
        rfl
      · rw [List.drop_left' (length_putUint32LE _)]
    · -- general transport rewrite
      have hch : cfg.H4.contains h = true ∧ h < 4294967296 := by
        by_cases hMM : cfg.H4.Min = cfg.H4.Max
        · rw [if_pos hMM, Option.some.injEq] at hpick
          have hfix : h = cfg.H4.Min := by
            rw [← hpick]
            rfl
          subst hfix
          exact ⟨(contains_iff cfg.H4 cfg.H4.Min).mpr (by omega), by omega⟩
        · rw [if_neg hMM] at hpick
          have hmem := pick_mem cfg.H4 k h hH4.1 hH4.2 hpick
          exact ⟨(contains_iff _ _).mpr ⟨hmem.1, hmem.2.1⟩, hmem.2.2⟩
      subst hdef
      have harg : ((if cfg.S4 > 0 then randFillBytes rnd cfg.S4.toNat else []) ++
          writeLE32At p 0 h).length - p.length =
          ((if cfg.S4 > 0 then randFillBytes rnd cfg.S4.toNat else []) : List Nat).length := by
        rw [List.length_append, length_writeLE32At _ _ _ (by omega)]
        omega
      rw [harg] at halias
      refine ⟨putUint32LE wgTransportData ++ p.drop 4, ?_, ?_, ?_⟩
      · exact padded_roundtrip4 cfg p _ h hlen hch.2
          (by rw [length_padIf]; have := S4_le_maxScan cfg; omega) halias hch.1
      · rw [readLE32_put_append, ht]
        rfl
      · rw [List.drop_left' (length_putUint32LE _)]

/-- Well-formed v2-style configuration with disjoint H-ranges, S1 = 2
padding and zero peer keys, used to witness the amended roundtrip. -/
def rtWitCfg : Config :=
  ⟨1, 1, 1, 2, 0, 0, 0, ⟨1000, 1000⟩, ⟨2000, 2000⟩, ⟨3000, 3000⟩, ⟨4000, 4000⟩,
   [none, none, none, none, none], zeroKey, zeroKey, 180, 0⟩

/-- Concrete 148-byte handshake-init used to witness the roundtrip. -/
def rtWitPkt : List Nat := putUint32LE wgHandshakeInit ++ List.replicate 144 7

/-- Concrete output of `TransformOutbound` on `rtWitPkt` under `rtWitCfg`
with the all-zero random stream: two zero padding bytes followed by the
type-rewritten packet. -/
def rtWitOut : List Nat := randFillBytes (fun _ => 0) 2 ++ writeLE32At rtWitPkt 0 1000

/-- Witness for the amended roundtrip: all hypotheses hold at a concrete
padded handshake-init and the theorem applies. -/
theorem roundtrip_restores_packet_witness :
    ∃ r, TransformInbound rtWitOut rtWitCfg = some r ∧
      readLE32 r = readLE32 rtWitPkt ∧ r.drop 4 = rtWitPkt.drop 4 :=
  roundtrip_restores_packet rtWitCfg rtWitPkt 0 (fun _ => 0) rtWitOut true
    (by decide) (by decide) (by decide) (by decide)
    (by decide) (by decide) (by decide)
    (by decide) (by decide) (by decide)
    (by decide)
    (by decide)
    (by decide)

/-! ## Claim C2: inbound first-match scan semantics -/

/-- C2: for every configuration (with the data-model constraint
`maxScan ≥ 0`) and every buffer of at least 4 bytes, `TransformInbound`
returns the rewritten suffix at the smallest offset in `[0, maxScan]`
with `off + 4 ≤ n` at which a rule matches, rules checked in the order
H4 → H1 → H2 → H3, and `none` (drop) when no offset matches — the
source function equals the spec-side first-match function. -/
theorem inbound_scan_first_match (cfg : Config) (buf : List Nat)
    (hlen : 4 ≤ buf.length) (hms : (0 : Int) ≤ cfg.maxScan) :
    TransformInbound buf cfg = TransformInboundSpec cfg buf :=
  transformInbound_eq_spec_aux cfg buf hlen hms

/-- Witness: the scan semantics theorem applied to a concrete buffer and
configuration. -/
theorem inbound_scan_first_match_witness :
    TransformInbound [0, 0, 0, 0] rtWitCfg = TransformInboundSpec rtWitCfg [0, 0, 0, 0] :=
  inbound_scan_first_match rtWitCfg [0, 0, 0, 0] (by decide) (by decide)

/-! ## Claim C10: valid inbound outputs are well-formed WireGuard -/

/-- C10: whenever `TransformInbound` returns `valid = true` (modelled
`some r`), the returned packet is well-formed standard WireGuard: its
little-endian type is in `{1,2,3,4}` with exactly the matching length
(148/92/64) or at least 32 bytes for transport; in particular no valid
output is shorter than 32 bytes. -/
theorem inbound_valid_well_formed (cfg : Config) (buf r : List Nat)
    (h : TransformInbound buf cfg = some r) :
    (readLE32 r = wgHandshakeInit ∧ r.length = WgHandshakeInitSize) ∨
    (readLE32 r = wgHandshakeResponse ∧ r.length = WgHandshakeResponseSize) ∨
    (readLE32 r = wgCookieReply ∧ r.length = WgCookieReplySize) ∨
    (readLE32 r = wgTransportData ∧ WgTransportMinSize ≤ r.length) :=
  inbound_some_shape_aux cfg buf r h

/-- Concrete 64-byte inbound datagram whose type field lies in
`rtWitCfg`'s H4 range. -/
def inWitBuf : List Nat := putUint32LE 4000 ++ List.replicate 60 0

/-- Witness: `TransformInbound` accepts `inWitBuf` and the shape
disjunction holds for the returned packet. -/
theorem inbound_valid_well_formed_witness :
    TransformInbound inWitBuf rtWitCfg = some (writeLE32At inWitBuf 0 wgTransportData) ∧
    ((readLE32 (writeLE32At inWitBuf 0 wgTransportData) = wgHandshakeInit ∧
        (writeLE32At inWitBuf 0 wgTransportData).length = WgHandshakeInitSize) ∨
     (readLE32 (writeLE32At inWitBuf 0 wgTransportData) = wgHandshakeResponse ∧
        (writeLE32At inWitBuf 0 wgTransportData).length = WgHandshakeResponseSize) ∨
     (readLE32 (writeLE32At inWitBuf 0 wgTransportData) = wgCookieReply ∧
        (writeLE32At inWitBuf 0 wgTransportData).length = WgCookieReplySize) ∨
     (readLE32 (writeLE32At inWitBuf 0 wgTransportData) = wgTransportData ∧
        WgTransportMinSize ≤ (writeLE32At inWitBuf 0 wgTransportData).length)) :=
  ⟨by decide, inbound_valid_well_formed rtWitCfg inWitBuf _ (by decide)⟩

/-! ## Claim C3: sendJunk exactly on handshake-init with Jc > 0 -/

/-- C3: whenever `TransformOutbound` returns, the `sendJunk` flag is
`true` exactly when the input is a well-formed handshake-init
(little-endian type 1, length exactly 148) and the configured `Jc` is
positive; every other input yields `sendJunk = false`. -/
theorem sendJunk_iff_init (buf : List Nat) (cfg : Config) (k : Nat) (rnd : Nat → Nat)
    (out : List Nat) (sj : Bool)
    (hout : TransformOutbound buf cfg k rnd = some (out, sj)) :
    sj = true ↔ (readLE32 buf = wgHandshakeInit ∧ buf.length = WgHandshakeInitSize ∧
      cfg.Jc > 0) := by
  simp only [TransformOutbound] at hout
  by_cases hn : buf.length < 4
  · rw [if_pos hn] at hout
    injection hout with hp
    have hsj : sj = false := (congrArg Prod.snd hp).symm
    subst hsj
    simp only [Bool.false_eq_true, false_iff]
    intro hc
    have := hc.2.1
    simp only [WgHandshakeInitSize] at this
    omega
  · rw [if_neg hn] at hout
    by_cases h1 : readLE32 buf = wgHandshakeInit ∧ buf.length = WgHandshakeInitSize
    · rw [if_pos h1] at hout
      rw [Option.map_eq_some'] at hout
      obtain ⟨h, hpick, heq⟩ := hout
      simp only [Prod.mk.injEq] at heq
      rw [← heq.2]
      simp only [decide_eq_true_eq]
      constructor
      · intro hj
        exact ⟨h1.1, h1.2, hj⟩
      · intro hj
        exact hj.2.2
    · have hsj : sj = false := by
        rw [if_neg h1] at hout
        by_cases h2 : readLE32 buf = wgHandshakeResponse ∧ buf.length = WgHandshakeResponseSize
        · rw [if_pos h2, Option.map_eq_some'] at hout
          obtain ⟨h, _, heq⟩ := hout
          simp only [Prod.mk.injEq] at heq
          exact heq.2.symm
        · rw [if_neg h2] at hout
          by_cases h3 : readLE32 buf = wgCookieReply ∧ buf.length = WgCookieReplySize
          · rw [if_pos h3, Option.map_eq_some'] at hout
            obtain ⟨h, _, heq⟩ := hout
            simp only [Prod.mk.injEq] at heq
            exact heq.2.symm
          · rw [if_neg h3] at hout
            by_cases h4 : readLE32 buf = wgTransportData ∧ buf.length ≥ WgTransportMinSize
            · rw [if_pos h4] at hout
              by_cases hno : cfg.h4NoOp = true
              · rw [if_pos hno] at hout
                injection hout with hp
                exact (congrArg Prod.snd hp).symm
              · rw [if_neg hno, Option.map_eq_some'] at hout
                obtain ⟨h, _, heq⟩ := hout
                simp only [Prod.mk.injEq] at heq
                exact heq.2.symm
            · rw [if_neg h4] at hout
              injection hout with hp
              exact (congrArg Prod.snd hp).symm
      subst hsj
      simp only [Bool.false_eq_true, false_iff]
      intro hc
      exact h1 ⟨hc.1, hc.2.1⟩

/-- Witness: the sendJunk characterisation applied to a concrete
handshake-init under a configuration with `Jc = 1`. -/
theorem sendJunk_iff_init_witness :
    (true = true ↔ (readLE32 rtWitPkt = wgHandshakeInit ∧
      rtWitPkt.length = WgHandshakeInitSize ∧ rtWitCfg.Jc > 0)) :=
  sendJunk_iff_init rtWitPkt rtWitCfg 0 (fun _ => 0) rtWitOut true (by decide)

/-! ## Helper lemmas: BLAKE2s incremental updates -/

theorem compressStep_buf_irrel (s : blake2sState) (x b : List Nat) :
    compressStep { s with buf := x } b = { compressStep s b with buf := x } := rfl

theorem updLoop_buf_irrel : ∀ (f : Nat) (s : blake2sState) (x d : List Nat),
    updLoop f { s with buf := x } d = updLoop f s d := by
  intro f
  induction f with
  | zero => intro s x d; rfl
  | succ f ih =>
    intro s x d
    simp only [updLoop]
    by_cases hd : d.length > 64
    · rw [if_pos hd, if_pos hd, compressStep_buf_irrel, ih]
    · rw [if_neg hd, if_neg hd]

theorem updLoop_short (f : Nat) (s : blake2sState) (d : List Nat) (hd : d.length ≤ 64) :
    updLoop f s d = { s with buf := d } := by
  cases f with
  | zero => rfl
  | succ f =>
    simp only [updLoop]
    rw [if_neg (by omega)]

theorem updLoop_fuel : ∀ (f g : Nat) (s : blake2sState) (d : List Nat),
    d.length ≤ f → d.length ≤ g → updLoop f s d = updLoop g s d := by
  intro f
  induction f with
  | zero =>
    intro g s d hf _
    rw [updLoop_short 0 s d (by omega), updLoop_short g s d (by omega)]
  | succ f ih =>
    intro g s d hf hg
    by_cases hd : d.length > 64
    · obtain ⟨g2, hg2⟩ : ∃ g2, g = g2 + 1 := ⟨g - 1, by omega⟩
      subst hg2
      simp only [updLoop]
      rw [if_pos hd, if_pos hd]
      exact ih g2 _ _ (by simp only [List.length_drop]; omega)
        (by simp only [List.length_drop]; omega)
    · rw [updLoop_short _ s d (by omega), updLoop_short g s d (by omega)]

theorem updLoop_buf_le : ∀ (f : Nat) (s : blake2sState) (d : List Nat),
    d.length ≤ f → (updLoop f s d).buf.length ≤ 64 := by
  intro f
  induction f with
  | zero =>
    intro s d hf
    rw [updLoop_short 0 s d (by omega)]
    simpa using by omega
  | succ f ih =>
    intro s d hf
    by_cases hd : d.length > 64
    · simp only [updLoop]
      rw [if_pos hd]
      exact ih _ _ (by simp only [List.length_drop]; omega)
    · rw [updLoop_short _ s d (by omega)]
      simpa using by omega

/-- The lazy-compression loop view of `update`: feeding `d` into state
`s` equals running the block loop on the pending bytes followed by `d`. -/
theorem update_eq_updLoop (s : blake2sState) (d : List Nat) (hb : s.buf.length ≤ 64) :
    blake2sUpdate s d = updLoop (s.buf ++ d).length s (s.buf ++ d) := by
  unfold blake2sUpdate
  by_cases hd0 : d.length = 0
  · rw [if_pos hd0]
    rw [List.length_eq_zero] at hd0
    subst hd0
    rw [List.append_nil, updLoop_short _ s s.buf hb]
  · rw [if_neg hd0]
    by_cases hfill : d.length > 64 - s.buf.length
    · rw [if_pos hfill]
      have hlen : (s.buf ++ d).length = s.buf.length + d.length := List.length_append _ _
      have hgt : (s.buf ++ d).length > 64 := by omega
      obtain ⟨m, hm⟩ : ∃ m, (s.buf ++ d).length = m + 1 := ⟨(s.buf ++ d).length - 1, by omega⟩
      rw [hm]
      simp only [updLoop]
      rw [if_pos (by omega : (s.buf ++ d).length > 64)]
      have htake : (s.buf ++ d).take 64 = s.buf ++ d.take (64 - s.buf.length) := by
        rw [List.take_append_eq_append_take, List.take_of_length_le (by omega)]
      have hdrop : (s.buf ++ d).drop 64 = d.drop (64 - s.buf.length) := by
        rw [List.drop_append_eq_append_drop, List.drop_eq_nil_of_le (by omega),
          List.nil_append]
      rw [htake, hdrop]
      exact updLoop_fuel _ _ _ _ (by simp only [List.length_drop]; omega)
        (by simp only [List.length_drop]; omega)
    · rw [if_neg hfill]
      rw [updLoop_short _ s _ (by
        simp only [List.length_append]
        omega)]

/-- Composing two runs of the block loop equals one run on the
concatenation. -/
theorem updLoop_append : ∀ (n : Nat) (A : List Nat), A.length ≤ n → ∀ (b : List Nat)
    (s : blake2sState),
    updLoop (A ++ b).length s (A ++ b) =
      updLoop ((updLoop A.length s A).buf ++ b).length (updLoop A.length s A)
        ((updLoop A.length s A).buf ++ b) := by
  intro n
  induction n with
  | zero =>
    intro A hA b s
    have hA0 : A = [] := by
      rw [← List.length_eq_zero]
      omega
    subst hA0
    rw [updLoop_short _ s [] (by simp)]
    simp only [List.nil_append]
    exact (updLoop_buf_irrel b.length s [] b).symm
  | succ n ih =>
    intro A hA b s
    by_cases hlong : A.length > 64
    · have htake : (A ++ b).take 64 = A.take 64 := by
        have h0 : 64 - A.length = 0 := by omega
        rw [List.take_append_eq_append_take, h0, List.take_zero, List.append_nil]
      have hdrop : (A ++ b).drop 64 = A.drop 64 ++ b := by
        rw [List.drop_append_eq_append_drop,
          (by omega : 64 - A.length = 0), List.drop_zero]
      have hstep1 : updLoop (A ++ b).length s (A ++ b) =
          updLoop ((A.drop 64 ++ b).length)
            (compressStep s (A.take 64)) (A.drop 64 ++ b) := by
        obtain ⟨m, hm⟩ : ∃ m, (A ++ b).length = m + 1 :=
          ⟨(A ++ b).length - 1, by simp only [List.length_append]; omega⟩
        rw [hm]
        simp only [updLoop]
        rw [if_pos (by simp only [List.length_append]; omega : (A ++ b).length > 64)]
        rw [htake, hdrop]
        exact updLoop_fuel _ _ _ _
          (by simp only [List.length_append, List.length_drop] at hm ⊢; omega) le_rfl
      have hstep2 : updLoop A.length s A =
          updLoop (A.drop 64).length (compressStep s (A.take 64)) (A.drop 64) := by
        obtain ⟨m, hm⟩ : ∃ m, A.length = m + 1 := ⟨A.length - 1, by omega⟩
        rw [hm]
        simp only [updLoop]
        rw [if_pos (by omega : A.length > 64)]
        exact updLoop_fuel _ _ _ _ (by simp only [List.length_drop]; omega) le_rfl
      rw [hstep1, hstep2]
      exact ih (A.drop 64) (by simp only [List.length_drop]; omega) b _
    · have hinner : updLoop A.length s A = { s with buf := A } :=
        updLoop_short _ s A (by omega)
      rw [hinner]
      exact (updLoop_buf_irrel (A ++ b).length s A (A ++ b)).symm

theorem update_buf_le (s : blake2sState) (d : List Nat) (hb : s.buf.length ≤ 64) :
    (blake2sUpdate s d).buf.length ≤ 64 := by
  rw [update_eq_updLoop s d hb]
  exact updLoop_buf_le _ _ _ le_rfl

/-- Two consecutive updates absorb exactly the concatenation. -/
theorem update_append (s : blake2sState) (a b : List Nat) (hb : s.buf.length ≤ 64) :
    blake2sUpdate (blake2sUpdate s a) b = blake2sUpdate s (a ++ b) := by
  have hb2 : (blake2sUpdate s a).buf.length ≤ 64 := update_buf_le s a hb
  rw [update_eq_updLoop _ b hb2, update_eq_updLoop s (a ++ b) hb,
    update_eq_updLoop s a hb]
  have hassoc : s.buf ++ (a ++ b) = (s.buf ++ a) ++ b := (List.append_assoc _ _ _).symm
  rw [hassoc]
  exact (updLoop_append (s.buf ++ a).length (s.buf ++ a) le_rfl b s).symm

theorem init_buf_le (nn : Nat) (key : List Nat) : (blake2sInit nn key).buf.length ≤ 64 := by
  unfold blake2sInit
  by_cases hk : key.length > 0
  · rw [if_pos hk]
    simp only [List.length_append, List.length_take, List.length_replicate]
    omega
  · rw [if_neg hk]
    simp

theorem foldl_update_eq (pieces : List (List Nat)) : ∀ s : blake2sState,
    s.buf.length ≤ 64 → pieces.foldl blake2sUpdate s = blake2sUpdate s pieces.flatten := by
  induction pieces with
  | nil =>
    intro s _
    simp only [List.foldl_nil, List.flatten_nil]
    rfl
  | cons p ps ih =>
    intro s hb
    simp only [List.foldl_cons, List.flatten_cons]
    rw [ih (blake2sUpdate s p) (update_buf_le s p hb), update_append s p ps.flatten hb]

/-! ## Claim C9: incremental BLAKE2s equals one-shot -/

/-- C9: feeding any sequence of consecutive pieces to the incremental
BLAKE2s update and finalising gives the same digest as a single update
with the concatenation, for the unkeyed 256-bit variant (`blake2s256`)
and the keyed 128-bit variant (`blake2s128MAC`) alike. -/
theorem blake2s_incremental (pieces : List (List Nat)) (key : List Nat) :
    blake2sSum (pieces.foldl blake2sUpdate (blake2sInit 32 [])) =
      blake2s256 pieces.flatten ∧
    (blake2sSum (pieces.foldl blake2sUpdate (blake2sInit 16 key))).take 16 =
      blake2s128MAC key pieces.flatten := by
  constructor
  · rw [foldl_update_eq pieces _ (init_buf_le 32 [])]
    rfl
  · rw [foldl_update_eq pieces _ (init_buf_le 16 key)]
    rfl

/-! ## Claim C5: tail preservation of TransformOutbound -/

/-- Configuration with a non-zero server public key, `S1 = 0` and point
H-ranges equal to the standard types, so the only outbound change to an
init is the MAC1 recomputation. -/
def macCexCfg : Config :=
  ⟨0, 1, 1, 0, 0, 0, 0, ⟨1, 1⟩, ⟨2, 2⟩, ⟨3, 3⟩, ⟨4, 4⟩,
   [none, none, none, none, none], 1 :: List.replicate 31 0, zeroKey, 180, 0⟩

/-- A 148-byte handshake-init whose MAC1 field is all zeroes. -/
def macCexPkt : List Nat := putUint32LE wgHandshakeInit ++ List.replicate 144 0

/-- C5 is false as stated: with `S1 = 0` but a non-zero `ServerPub`, the
outbound handshake-init path recomputes MAC1 in place, so bytes
`[116..132]` of the output differ from the input even though the padding
parameter is zero and the type is not transport-data. -/
theorem outbound_tail_not_always_preserved :
    (TransformOutbound macCexPkt macCexCfg 0 (fun _ => 0)).isSome = true ∧
    (TransformOutbound macCexPkt macCexCfg 0 (fun _ => 0)).map (fun r => r.1.drop 4) ≠
      some (macCexPkt.drop 4) := by
  constructor
  · decide
  · decide

/-- C5 (amended): for packets of the three non-transport classified
shapes with the corresponding padding parameter zero — and, for the
handshake-init, a zero `ServerPub` (otherwise the MAC1 field is
rewritten) — `TransformOutbound` keeps bytes `[4..n]` byte-identical and
the length unchanged: only the 4-byte type field changes. -/
theorem outbound_tail_preserved (cfg : Config) (p : List Nat) (k : Nat) (rnd : Nat → Nat)
    (out : List Nat) (sj : Bool)
    (hshape : (readLE32 p = wgHandshakeInit ∧ p.length = WgHandshakeInitSize ∧
                 cfg.S1 = 0 ∧ cfg.ServerPub = zeroKey) ∨
              (readLE32 p = wgHandshakeResponse ∧ p.length = WgHandshakeResponseSize ∧
                 cfg.S2 = 0) ∨
              (readLE32 p = wgCookieReply ∧ p.length = WgCookieReplySize ∧ cfg.S3 = 0))
    (hout : TransformOutbound p cfg k rnd = some (out, sj)) :
    out.drop 4 = p.drop 4 ∧ out.length = p.length := by
  rcases hshape with ⟨ht, hlen, hS, hsp⟩ | ⟨ht, hlen, hS⟩ | ⟨ht, hlen, hS⟩
  · obtain ⟨h, hpick, hdef, _⟩ := outbound_init_some p cfg k rnd out sj ht hlen hout
    rw [if_neg (show ¬cfg.ServerPub ≠ zeroKey by simp [hsp])] at hdef
    rw [if_neg (by omega), List.nil_append] at hdef
    subst hdef
    constructor
    · rw [writeLE32At_zero, List.drop_left' (length_putUint32LE h)]
    · exact length_writeLE32At _ _ _ (by rw [hlen]; norm_num [WgHandshakeInitSize])
  · obtain ⟨h, hpick, hdef, _⟩ := outbound_response_some p cfg k rnd out sj ht hlen hout
    rw [if_neg (by omega), List.nil_append] at hdef
    subst hdef
    constructor
    · rw [writeLE32At_zero, List.drop_left' (length_putUint32LE h)]
    · exact length_writeLE32At _ _ _ (by rw [hlen]; norm_num [WgHandshakeResponseSize])
  · obtain ⟨h, hpick, hdef, _⟩ := outbound_cookie_some p cfg k rnd out sj ht hlen hout
    rw [if_neg (by omega), List.nil_append] at hdef
    subst hdef
    constructor
    · rw [writeLE32At_zero, List.drop_left' (length_putUint32LE h)]
    · exact length_writeLE32At _ _ _ (by rw [hlen]; norm_num [WgCookieReplySize])

/-- Concrete 92-byte handshake-response used to witness tail
preservation. -/
def respWitPkt : List Nat := putUint32LE wgHandshakeResponse ++ List.replicate 88 5

/-- Witness: tail preservation applied to a concrete handshake-response
under a configuration with `S2 = 0`. -/
theorem outbound_tail_preserved_witness :
    (writeLE32At respWitPkt 0 2000).drop 4 = respWitPkt.drop 4 ∧
    (writeLE32At respWitPkt 0 2000).length = respWitPkt.length :=
  outbound_tail_preserved rtWitCfg respWitPkt 0 (fun _ => 0)
    (writeLE32At respWitPkt 0 2000) false (Or.inr (Or.inl (by decide))) (by decide)

/-! ## Claim C4: outbound MAC1 recomputation -/

/-- Configuration with a non-zero client public key and point H-ranges
equal to the standard types. -/
def macCexCfg2 : Config :=
  ⟨0, 1, 1, 0, 0, 0, 0, ⟨1, 1⟩, ⟨2, 2⟩, ⟨3, 3⟩, ⟨4, 4⟩,
   [none, none, none, none, none], zeroKey, 1 :: List.replicate 31 0, 180, 0⟩

/-- A 92-byte handshake-response whose MAC1 field is all zeroes. -/
def macCexPkt2 : List Nat := putUint32LE wgHandshakeResponse ++ List.replicate 88 0

/-- C4 is false as stated: an outbound handshake-response is returned
with its MAC1 field untouched even when the client public key is
non-zero — the output's bytes `[60..76]` do not equal the MAC recomputed
with `mac1keyClient`, so the field was not recomputed. -/
theorem outbound_response_mac1_not_recomputed :
    TransformOutbound macCexPkt2 macCexCfg2 0 (fun _ => 0) = some (macCexPkt2, false) ∧
    macCexCfg2.ClientPub ≠ zeroKey ∧
    (macCexPkt2.drop 60).take 16 ≠
      blake2s128MAC macCexCfg2.mac1keyClient (macCexPkt2.take 60) := by
  refine ⟨by decide, by decide, by decide⟩

/-- C4 (amended): for an outbound handshake-init the MAC1 field (bytes
`[116..132]` of the packet after the prepended padding) is recomputed
with the server key iff `ServerPub` is non-zero — when `ServerPub` is
zero the whole tail from byte 116 is preserved; an outbound
handshake-response never has its MAC1 recomputed: its tail from byte 60
(which contains the MAC1 field `[60..76]`) is always preserved.  (The
response MAC1 is instead recomputed on the inbound path iff `ClientPub`
is non-zero.) -/
theorem outbound_mac1_recompute (cfg : Config) (p : List Nat) (k : Nat) (rnd : Nat → Nat)
    (out : List Nat) (sj : Bool)
    (hout : TransformOutbound p cfg k rnd = some (out, sj)) :
    ((readLE32 p = wgHandshakeInit ∧ p.length = WgHandshakeInitSize) →
      (cfg.ServerPub ≠ zeroKey →
        ((out.drop (out.length - WgHandshakeInitSize)).drop 116).take 16 =
          blake2s128MAC cfg.mac1keyServer
            ((out.drop (out.length - WgHandshakeInitSize)).take 116)) ∧
      (cfg.ServerPub = zeroKey →
        (out.drop (out.length - WgHandshakeInitSize)).drop 116 = p.drop 116)) ∧
    ((readLE32 p = wgHandshakeResponse ∧ p.length = WgHandshakeResponseSize) →
      (out.drop (out.length - WgHandshakeResponseSize)).drop 60 = p.drop 60) := by
  constructor
  · rintro ⟨ht, hlen⟩
    obtain ⟨h, hpick, hdef, _⟩ := outbound_init_some p cfg k rnd out sj ht hlen hout
    have hb1len : (writeLE32At p 0 h).length = 148 := by
      rw [length_writeLE32At p 0 h (by rw [hlen]; norm_num [WgHandshakeInitSize]), hlen]
      rfl
    have h116 : ((writeLE32At p 0 h).take 116).length = 116 := by
      simp [List.length_take, hb1len]
    constructor
    · intro hsp
      rw [if_pos hsp] at hdef
      subst hdef
      have hcorelen : (recomputeMAC1 (writeLE32At p 0 h) cfg.mac1keyServer).length = 148 := by
        unfold recomputeMAC1
        simp only [List.length_append, List.length_take, List.length_drop,
          length_blake2s128MAC, hb1len]
        norm_num
      have hidx : ((if cfg.S1 > 0 then randFillBytes rnd cfg.S1.toNat else []) ++
          recomputeMAC1 (writeLE32At p 0 h) cfg.mac1keyServer).length -
          WgHandshakeInitSize =
          ((if cfg.S1 > 0 then randFillBytes rnd cfg.S1.toNat else []) : List Nat).length := by
        simp only [List.length_append, hcorelen, WgHandshakeInitSize]
        omega
      rw [hidx, List.drop_left' rfl]
      unfold recomputeMAC1
      rw [List.append_assoc]
      rw [List.drop_left' h116, List.take_left' h116,
        List.take_left' (length_blake2s128MAC cfg.mac1keyServer _)]
    · intro hsp
      rw [if_neg (show ¬cfg.ServerPub ≠ zeroKey by simp [hsp])] at hdef
      subst hdef
      have hidx : ((if cfg.S1 > 0 then randFillBytes rnd cfg.S1.toNat else []) ++
          writeLE32At p 0 h).length - WgHandshakeInitSize =
          ((if cfg.S1 > 0 then randFillBytes rnd cfg.S1.toNat else []) : List Nat).length := by
        simp only [List.length_append, hb1len, WgHandshakeInitSize]
        omega
      rw [hidx, List.drop_left' rfl, writeLE32At_zero]
      rw [List.drop_append_eq_append_drop,
        List.drop_eq_nil_of_le (by rw [length_putUint32LE]; norm_num),
        List.nil_append, List.drop_drop, length_putUint32LE]
  · rintro ⟨ht, hlen⟩
    obtain ⟨h, hpick, hdef, _⟩ := outbound_response_some p cfg k rnd out sj ht hlen hout
    have hb1len : (writeLE32At p 0 h).length = 92 := by
      rw [length_writeLE32At p 0 h (by rw [hlen]; norm_num [WgHandshakeResponseSize]), hlen]
      rfl
    subst hdef
    have hidx : ((if cfg.S2 > 0 then randFillBytes rnd cfg.S2.toNat else []) ++
        writeLE32At p 0 h).length - WgHandshakeResponseSize =
        ((if cfg.S2 > 0 then randFillBytes rnd cfg.S2.toNat else []) : List Nat).length := by
      simp only [List.length_append, hb1len, WgHandshakeResponseSize]
      omega
    rw [hidx, List.drop_left' rfl, writeLE32At_zero]
    rw [List.drop_append_eq_append_drop,
      List.drop_eq_nil_of_le (by rw [length_putUint32LE]; norm_num),
      List.nil_append, List.drop_drop, length_putUint32LE]

/-- Witness: the MAC1 recomputation characterisation applied to a
concrete handshake-init (zero server key, so the preservation arm is the
live one). -/
theorem outbound_mac1_recompute_witness :
    ((readLE32 rtWitPkt = wgHandshakeInit ∧ rtWitPkt.length = WgHandshakeInitSize) →
      (rtWitCfg.ServerPub ≠ zeroKey →
        ((rtWitOut.drop (rtWitOut.length - WgHandshakeInitSize)).drop 116).take 16 =
          blake2s128MAC rtWitCfg.mac1keyServer
            ((rtWitOut.drop (rtWitOut.length - WgHandshakeInitSize)).take 116)) ∧
      (rtWitCfg.ServerPub = zeroKey →
        (rtWitOut.drop (rtWitOut.length - WgHandshakeInitSize)).drop 116 =
          rtWitPkt.drop 116)) ∧
    ((readLE32 rtWitPkt = wgHandshakeResponse ∧
        rtWitPkt.length = WgHandshakeResponseSize) →
      (rtWitOut.drop (rtWitOut.length - WgHandshakeResponseSize)).drop 60 =
        rtWitPkt.drop 60) :=
  outbound_mac1_recompute rtWitCfg rtWitPkt 0 (fun _ => 0) rtWitOut true (by decide)

/-! ## Claim C7: HRange.Pick stays in range -/

/-- C7 is false as stated: on the full range `[0, 2^32-1]` (which
satisfies `Min ≤ Max`), the uint32 bound `Max - Min + 1` wraps to zero
and `rand.IntN(0)` panics — modelled by `pick` returning `none` instead
of a value. -/
theorem pick_faults_on_full_range :
    HRange.pick ⟨0, 4294967295⟩ 0 = none ∧ (0 : Nat) ≤ 4294967295 := by
  constructor
  · decide
  · decide

/-- C7 (amended): for every range with `Min ≤ Max < 2^32` other than the
full range `[0, 2^32-1]`, `Pick` returns without faulting and its value
satisfies `Contains`. -/
theorem pick_in_range (r : HRange) (k : Nat)
    (hle : r.Min ≤ r.Max) (hlt : r.Max < 4294967296)
    (hfull : r.Min ≠ 0 ∨ r.Max ≠ 4294967295) :
    ∃ v, r.pick k = some v ∧ r.contains v = true := by
  unfold HRange.pick
  by_cases heq : r.Min = r.Max
  · rw [if_pos heq]
    exact ⟨r.Min, rfl, (contains_iff _ _).mpr (by omega)⟩
  · rw [if_neg heq]
    have hb : ¬(r.Max + 4294967296 - r.Min + 1) % 4294967296 = 0 := by omega
    rw [if_neg hb]
    refine ⟨_, rfl, (contains_iff _ _).mpr ?_⟩
    have hkb : k % ((r.Max + 4294967296 - r.Min + 1) % 4294967296) <
        (r.Max + 4294967296 - r.Min + 1) % 4294967296 :=
      Nat.mod_lt _ (Nat.pos_of_ne_zero hb)
    omega

/-- Witness: `pick` on the range `[3,7]` with draw 9 returns a value in
range. -/
theorem pick_in_range_witness :
    (3 : Nat) ≤ 7 ∧ (7 : Nat) < 4294967296 ∧
    ∃ v, HRange.pick ⟨3, 7⟩ 9 = some v ∧ HRange.contains ⟨3, 7⟩ v = true :=
  ⟨by decide, by decide, pick_in_range ⟨3, 7⟩ 9 (by decide) (by decide) (by decide)⟩

/-! ## Claim C8: junk packet count and sizes -/

/-- C8: under the data-model bounds `1 ≤ Jmin ≤ Jmax ≤ 1500`, a positive
`Jc` yields exactly `Jc` junk buffers whose sizes all lie in
`[Jmin, Jmax]` inclusive, and `Jc = 0` yields the empty list. -/
theorem junk_count_and_sizes (cfg : Config) (sz : Nat → Nat) (rnd : Nat → Nat → Nat)
    (hjm : 1 ≤ cfg.Jmin) (hmm2 : cfg.Jmin ≤ cfg.Jmax) (hmx : cfg.Jmax ≤ 1500) :
    (0 < cfg.Jc →
      (GenerateJunkPackets cfg sz rnd).length = cfg.Jc.toNat ∧
      ∀ pk ∈ GenerateJunkPackets cfg sz rnd,
        cfg.Jmin ≤ (pk.length : Int) ∧ (pk.length : Int) ≤ cfg.Jmax) ∧
    (cfg.Jc = 0 → GenerateJunkPackets cfg sz rnd = []) := by
  constructor
  · intro hc
    unfold GenerateJunkPackets
    simp only []
    rw [if_neg (by omega), if_neg (by omega : ¬cfg.Jmin ≤ 0),
      if_neg (by omega : ¬cfg.Jmax < cfg.Jmin)]
    constructor
    · simp
    · intro pk hpk
      simp only [List.mem_map, List.mem_range] at hpk
      obtain ⟨i, _, hpk⟩ := hpk
      rw [← hpk]
      simp only [List.length_map, List.length_range]
      by_cases hlt : cfg.Jmin < cfg.Jmax
      · rw [if_pos hlt]
        have hbpos : (0 : Int) < cfg.Jmax - cfg.Jmin + 1 := by omega
        have hkb : sz i % (cfg.Jmax - cfg.Jmin + 1).toNat <
            (cfg.Jmax - cfg.Jmin + 1).toNat := Nat.mod_lt _ (by omega)
        omega
      · rw [if_neg hlt]
        omega
  · intro hc
    unfold GenerateJunkPackets
    rw [if_pos (by omega)]

/-- Witness: junk generation with `Jc = 1`, `Jmin = 1`, `Jmax = 1`
(the bounds of `rtWitCfg`). -/
theorem junk_count_and_sizes_witness :
    (0 < rtWitCfg.Jc →
      (GenerateJunkPackets rtWitCfg (fun _ => 0) (fun _ _ => 0)).length = rtWitCfg.Jc.toNat ∧
      ∀ pk ∈ GenerateJunkPackets rtWitCfg (fun _ => 0) (fun _ _ => 0),
        rtWitCfg.Jmin ≤ (pk.length : Int) ∧ (pk.length : Int) ≤ rtWitCfg.Jmax) ∧
    (rtWitCfg.Jc = 0 → GenerateJunkPackets rtWitCfg (fun _ => 0) (fun _ _ => 0) = []) :=
  junk_count_and_sizes rtWitCfg (fun _ => 0) (fun _ _ => 0) (by decide) (by decide) (by decide)

/-! ## Claim C6: CPS packet generation order and counter -/

theorem mapIdx_congr (f g : Nat → CPSTemplate → List Nat) :
    ∀ l : List CPSTemplate, (∀ i a, f i a = g i a) → l.mapIdx f = l.mapIdx g := by
  intro l
  induction l generalizing f g with
  | nil => intro h; rfl
  | cons a l ih =>
    intro h
    rw [List.mapIdx_cons, List.mapIdx_cons, h 0 a]
    rw [ih (fun i => f (i + 1)) (fun i => g (i + 1)) (fun i a => h (i + 1) a)]

/-- The CPS walk in closed form: the emitted packets are the configured
templates in slot order, the `j`-th generated with counter `c + j` and
the `j`-th consumed random environment; the counter ends at `c` plus the
number of configured templates. -/
theorem generateCPSGo_spec : ∀ (ts : List (Option CPSTemplate)) (i c : Nat)
    (env : Nat → Nat × (Nat → Nat)), c + ts.length < 4294967296 →
    generateCPSGo ts i c env =
      ((ts.filterMap id).mapIdx
        (fun j t => t.Generate (c + j) (env (i + j)).1 (env (i + j)).2),
       c + (ts.filterMap id).length) := by
  intro ts
  induction ts with
  | nil =>
    intro i c env hc
    simp [generateCPSGo]
  | cons hd rest ih =>
    intro i c env hc
    cases hd with
    | none =>
      rw [show generateCPSGo (none :: rest) i c env = generateCPSGo rest i c env from rfl]
      rw [show (List.filterMap id (none :: rest)) = List.filterMap id rest from rfl]
      exact ih i c env (by simp only [List.length_cons] at hc; omega)
    | some t =>
      have hmod : (c + 1) % 4294967296 = c + 1 :=
        Nat.mod_eq_of_lt (by simp only [List.length_cons] at hc; omega)
      have hstep : generateCPSGo (some t :: rest) i c env =
          (t.Generate c (env i).1 (env i).2 ::
            (generateCPSGo rest (i + 1) ((c + 1) % 4294967296) env).1,
           (generateCPSGo rest (i + 1) ((c + 1) % 4294967296) env).2) := rfl
      rw [hstep, hmod, ih (i + 1) (c + 1) env (by simp only [List.length_cons] at hc; omega)]
      rw [show (List.filterMap id (some t :: rest)) = t :: List.filterMap id rest from rfl]
      rw [List.mapIdx_cons]
      simp only [Nat.add_zero, List.length_cons, Prod.mk.injEq]
      constructor
      · congr 1
        exact mapIdx_congr _ _ (List.filterMap id rest) (fun j a => by
          have h1 : c + 1 + j = c + (j + 1) := by omega
          have h2 : i + 1 + j = i + (j + 1) := by omega
          rw [h1, h2])
      · omega

/-- C6: `GenerateCPSPackets` visits the five template slots in index
order, skips unconfigured slots, and generates the `k`-th emitted packet
(0-based) with counter value `initial + k`, incrementing the counter
after each packet; the output list is strictly in I1 → I5 order and the
final counter is the initial value plus the number of configured
templates. -/
theorem generateCPS_order_and_counter (templates : List (Option CPSTemplate)) (c0 : Nat)
    (env : Nat → Nat × (Nat → Nat)) (hlen : templates.length = 5)
    (hc : c0 + 5 < 4294967296) :
    GenerateCPSPackets templates c0 env =
      ((templates.filterMap id).mapIdx
        (fun j t => t.Generate (c0 + j) (env j).1 (env j).2),
       c0 + (templates.filterMap id).length) := by
  unfold GenerateCPSPackets
  rw [generateCPSGo_spec templates 0 c0 env (by omega)]
  simp only [Nat.zero_add]

/-- Static CPS template `<b 0xDEAD>`. -/
def cpsWitTemplA : CPSTemplate := ⟨[⟨98, [222, 173], 0⟩]⟩

/-- Counter CPS template `<c>`. -/
def cpsWitTemplB : CPSTemplate := ⟨[⟨99, [], 0⟩]⟩

/-- Template slots with I1 and I3 configured, I2, I4, I5 unset. -/
def cpsWitTemplates : List (Option CPSTemplate) :=
  [some cpsWitTemplA, none, some cpsWitTemplB, none, none]

/-- All-zero random environment for the CPS witness. -/
def cpsWitEnv : Nat → Nat × (Nat → Nat) := fun _ => (0, fun _ => 0)

/-- Witness: CPS generation over the concrete slot list starting at
counter zero. -/
theorem generateCPS_order_and_counter_witness :
    GenerateCPSPackets cpsWitTemplates 0 cpsWitEnv =
      ((cpsWitTemplates.filterMap id).mapIdx
        (fun j t => t.Generate (0 + j) (cpsWitEnv j).1 (cpsWitEnv j).2),
       0 + (cpsWitTemplates.filterMap id).length) :=
  generateCPS_order_and_counter cpsWitTemplates 0 cpsWitEnv (by decide) (by decide)
